import Mathlib

/-!
Shallow embedding of the slack-assistant core (sync engine, status ranker,
search aggregator) for checking the natural-language specification.

Conventions of the embedding:
* Slack timestamps (`ts`) are `String`s, compared lexicographically exactly as
  Python compares `str` (the code does `msg.ts <= oldest` on strings).
* Wall-clock times (`created_at`, `NOW()`) are rationals (`ℚ`); the database
  clock is passed explicitly as a `now` argument to every operation that
  writes `NOW()`.
* The database is a pure state (`DB`); each repository method from
  `db/repository.py` becomes a function `... → DB → DB` (possibly returning a
  value as well).
* Fallible persistence: `upsert_message` executes SQL that can raise.  The
  poller-level functions thread `Except DB DB`: an error aborts control flow
  (as a Python exception does) while the writes already performed survive, so
  the error value carries the database state at the moment of the failure.
  Which calls fail is an environment parameter (`fail`), mirroring an
  external storage error.
-/

/-- One entry of a Slack message's `reactions` field: emoji name and the
list of reacting user ids (the `count` field is not read by the code). -/
structure SlackReaction where
  name : String
  users : List String
deriving DecidableEq, Repr

/-- The raw Slack message dict, restricted to the keys the code reads.
`extra` stands for the residual key/value pairs that `Message.from_slack`
dumps into `metadata` (opaque to all logic). -/
structure SlackMsg where
  ts : String
  user : Option String
  text : Option String
  thread_ts : Option String
  reply_count : Nat
  edited : Bool
  msg_type : String
  reactions : List SlackReaction
  extra : String
deriving DecidableEq, Repr

/-- The `Message` dataclass of `db/models.py` (id is `None` for new rows). -/
structure Msg where
  id : Option Nat
  channel_id : String
  ts : String
  user_id : Option String
  text : Option String
  thread_ts : Option String
  reply_count : Nat
  is_edited : Bool
  message_type : String
  created_at : Option ℚ
  metadata : String
deriving DecidableEq, Repr

/-- A row of the `messages` table (spec §6: `id PK autogen`,
`UNIQUE(channel_id, ts)`). -/
structure MessageRow where
  id : Nat
  channel_id : String
  ts : String
  user_id : Option String
  text : Option String
  thread_ts : Option String
  reply_count : Nat
  is_edited : Bool
  message_type : String
  created_at : Option ℚ
  updated_at : Option ℚ
  metadata : String
deriving DecidableEq, Repr

/-- A row of the `reactions` table. -/
structure ReactionRow where
  id : Nat
  message_id : Nat
  name : String
  user_id : String
  created_at : ℚ
deriving DecidableEq, Repr

/-- A row of the `channels` table (fields the core logic reads). -/
structure ChannelRow where
  id : String
  name : Option String
  channel_type : String
  archived : Bool
deriving DecidableEq, Repr

/-- A row of the `users` table. -/
structure UserRow where
  id : String
  name : Option String
  real_name : Option String
  display_name : Option String
  is_bot : Bool
  metadata : String
deriving DecidableEq, Repr

/-- A row of the `sync_state` table (`channel_id PK`). -/
structure SyncRow where
  channel_id : String
  last_ts : Option String
  last_sync_at : ℚ
deriving DecidableEq, Repr

/-- The relational store.  `nextMessageId` / `nextReactionId` model the
autogenerated primary keys. -/
structure DB where
  channels : List ChannelRow
  users : List UserRow
  messages : List MessageRow
  reactions : List ReactionRow
  sync_state : List SyncRow
  nextMessageId : Nat
  nextReactionId : Nat
deriving DecidableEq, Repr

/-- Python truthiness of an optional string (`if oldest:`). -/
def truthyStr : Option String → Bool
  | some s => s ≠ ""
  | none => false

/-- Lexicographic (code-point) order on char lists, exactly Python's
`str.__le__` on the underlying code points. -/
def listLe : List Char → List Char → Bool
  | [], _ => true
  | _ :: _, [] => false
  | a :: as, b :: bs =>
    if a.toNat < b.toNat then true
    else if b.toNat < a.toNat then false
    else listLe as bs

/-- Python's `s <= t` on strings. -/
def strLe (s t : String) : Bool := listLe s.data t.data

/-- Python's `s < t` on strings. -/
def strLt (s t : String) : Bool := !strLe t s

/-- Decimal digit value of a character, if it is a digit. -/
def digitVal (c : Char) : Option Nat :=
  if 48 ≤ c.toNat ∧ c.toNat ≤ 57 then some (c.toNat - 48) else none

/-- Read a non-empty all-digit char list as a natural number. -/
def digitsAux : List Char → Nat → Option Nat
  | [], acc => some acc
  | c :: cs, acc =>
    match digitVal c with
    | none => none
    | some d => digitsAux cs (acc * 10 + d)

/-- `int`-style parse of a digit run (`none` on empty or non-digit input). -/
def digitsToNat : List Char → Option Nat
  | [] => none
  | l => digitsAux l 0

/-- Split a char list at the `'.'` separators. -/
def chunksDot : List Char → List (List Char)
  | [] => [[]]
  | c :: cs =>
    let r := chunksDot cs
    if c = '.' then [] :: r
    else
      match r with
      | [] => [[c]]
      | h :: t => (c :: h) :: t

/-- `float(ts)` on a Slack timestamp string of the form `"<digits>.<digits>"`
or `"<digits>"` (the shape the remote issues), as a rational; `none` when
the string does not have that shape. -/
def parseTs (s : String) : Option ℚ :=
  match chunksDot s.data with
  | [a] => (digitsToNat a).map (fun n => (n : ℚ))
  | [a, b] =>
    match digitsToNat a, digitsToNat b with
    | some n, some f => some ((n : ℚ) + (f : ℚ) / ((10 : ℚ) ^ b.length))
    | _, _ => none
  | _ => none

/-- `Message.from_slack` (`db/models.py`): normalize a raw Slack message
dict into the `Message` dataclass. -/
def Msg.from_slack (channel_id : String) (m : SlackMsg) : Msg :=
  { id := none
    channel_id := channel_id
    ts := m.ts
    user_id := m.user
    text := m.text
    thread_ts := m.thread_ts
    reply_count := m.reply_count
    is_edited := m.edited
    message_type := m.msg_type
    created_at := if m.ts ≠ "" then parseTs m.ts else none
    metadata := m.extra }

/-- Key of a message row under the `UNIQUE(channel_id, ts)` constraint. -/
def MessageRow.key (r : MessageRow) : String × String := (r.channel_id, r.ts)

/-- All `(channel_id, ts)` keys present in the messages table. -/
def DB.messageKeys (db : DB) : List (String × String) :=
  db.messages.map MessageRow.key

/-- `Repository.upsert_message`: `INSERT ... ON CONFLICT (channel_id, ts) DO
UPDATE SET user_id, text, thread_ts, reply_count, is_edited, updated_at,
metadata ... RETURNING id`.  Returns the row id and the new state. -/
def upsert_message (now : ℚ) (m : Msg) (db : DB) : Nat × DB :=
  match db.messages.find? (fun r => r.channel_id = m.channel_id ∧ r.ts = m.ts) with
  | some r =>
    (r.id,
     { db with
        messages := db.messages.map (fun r2 =>
          if r2.channel_id = m.channel_id ∧ r2.ts = m.ts then
            { r2 with
                user_id := m.user_id
                text := m.text
                thread_ts := m.thread_ts
                reply_count := m.reply_count
                is_edited := m.is_edited
                updated_at := some now
                metadata := m.metadata }
          else r2) })
  | none =>
    (db.nextMessageId,
     { db with
        messages := db.messages ++
          [{ id := db.nextMessageId
             channel_id := m.channel_id
             ts := m.ts
             user_id := m.user_id
             text := m.text
             thread_ts := m.thread_ts
             reply_count := m.reply_count
             is_edited := m.is_edited
             message_type := m.message_type
             created_at := m.created_at
             updated_at := some now
             metadata := m.metadata }]
        nextMessageId := db.nextMessageId + 1 })

/-- Insert one reaction row with `ON CONFLICT DO NOTHING`.  Modelled from the
spec: the DDL of the `reactions` table is not in the sources; spec §3 gives
the Reaction key `(message_id, emoji_name, user_id)`, so the conflict target
is a unique constraint on that triple and a duplicate insert is a no-op. -/
def insertReaction (now : ℚ) (message_id : Nat) (name user_id : String) (db : DB) : DB :=
  if db.reactions.any (fun r => r.message_id = message_id ∧ r.name = name ∧ r.user_id = user_id) then
    db
  else
    { db with
        reactions := db.reactions ++
          [{ id := db.nextReactionId
             message_id := message_id
             name := name
             user_id := user_id
             created_at := now }]
        nextReactionId := db.nextReactionId + 1 }

/-- `Repository.upsert_reactions`: delete every reaction row of the message,
then insert one row per `(name, user)` pair of the fetched snapshot. -/
def upsert_reactions (now : ℚ) (message_id : Nat) (reactions : List SlackReaction) (db : DB) : DB :=
  let db0 : DB :=
    { db with reactions := db.reactions.filter (fun r => r.message_id ≠ message_id) }
  reactions.foldl
    (fun acc reaction =>
      reaction.users.foldl
        (fun acc2 user_id => insertReaction now message_id reaction.name user_id acc2)
        acc)
    db0

/-- `Repository.get_sync_state`: the sync row of a channel, if any. -/
def get_sync_state (channel_id : String) (db : DB) : Option SyncRow :=
  db.sync_state.find? (fun r => r.channel_id = channel_id)

/-- `Repository.upsert_sync_state`: `INSERT ... ON CONFLICT (channel_id) DO
UPDATE SET last_ts = EXCLUDED.last_ts, last_sync_at = NOW()`. -/
def upsert_sync_state (now : ℚ) (channel_id : String) (last_ts : Option String) (db : DB) : DB :=
  if db.sync_state.any (fun r => r.channel_id = channel_id) then
    { db with
        sync_state := db.sync_state.map (fun r =>
          if r.channel_id = channel_id then
            { r with last_ts := last_ts, last_sync_at := now }
          else r) }
  else
    { db with
        sync_state := db.sync_state ++
          [{ channel_id := channel_id, last_ts := last_ts, last_sync_at := now }] }

/-- `Repository.get_user`. -/
def get_user (user_id : String) (db : DB) : Option UserRow :=
  db.users.find? (fun r => r.id = user_id)

/-- `Repository.upsert_user`. -/
def upsert_user (u : UserRow) (db : DB) : DB :=
  if db.users.any (fun r => r.id = u.id) then
    { db with users := db.users.map (fun r => if r.id = u.id then u else r) }
  else
    { db with users := db.users ++ [u] }

/-- The Slack client as seen by the poller: `history` is the result of
`SlackClient.get_channel_history` (the `if oldest:` truthiness gate lives
inside it), `threadRepliesRaw` is the raw `conversations_replies` response
before the client slices off the parent, `userInfo` is the normalized
result of `get_user_info` (already shaped as the user row the poller
builds from the profile dict). -/
structure ClientModel where
  history : String → Option String → List SlackMsg
  threadRepliesRaw : String → String → List SlackMsg
  userInfo : String → Option UserRow

/-- `SlackClient.get_thread_replies` (`slack/client.py`): the first entry of
the response is the parent; return the rest, or `[]` when the response has
at most one entry. -/
def get_thread_replies (raw : List SlackMsg) : List SlackMsg :=
  if raw.length > 1 then raw.drop 1 else []

/-- `Repository.upsert_message` as the poller sees it: the SQL call can
raise a storage error; which `(channel_id, ts)` calls fail is the
environment parameter `fail`.  On error the database is unchanged by this
call and control aborts (`Except`); the error value carries the state. -/
def upsert_message_exc (fail : String → String → Bool) (now : ℚ) (m : Msg) (db : DB) :
    Except DB (Nat × DB) :=
  if fail m.channel_id m.ts then Except.error db else Except.ok (upsert_message now m db)

/-- `SlackPoller._ensure_user_cached`. -/
def ensure_user_cached (client : ClientModel) (user_id : String) (db : DB) : DB :=
  match get_user user_id db with
  | some _ => db
  | none =>
    match client.userInfo user_id with
    | none => db
    | some u => upsert_user u db

/-- Loop body of `SlackPoller._sync_thread_replies` over the reply list. -/
def syncRepliesList (client : ClientModel) (fail : String → String → Bool) (now : ℚ)
    (channel_id : String) : List SlackMsg → DB → Except DB DB
  | [], db => Except.ok db
  | r :: rest, db =>
    match upsert_message_exc fail now (Msg.from_slack channel_id r) db with
    | Except.error db2 => Except.error db2
    | Except.ok (mid, db2) =>
      let db3 := if r.reactions ≠ [] then upsert_reactions now mid r.reactions db2 else db2
      let db4 :=
        match (Msg.from_slack channel_id r).user_id with
        | some uid => ensure_user_cached client uid db3
        | none => db3
      syncRepliesList client fail now channel_id rest db4

/-- `SlackPoller._sync_thread_replies`. -/
def sync_thread_replies (client : ClientModel) (fail : String → String → Bool) (now : ℚ)
    (channel_id thread_ts : String) (db : DB) : Except DB DB :=
  syncRepliesList client fail now channel_id
    (get_thread_replies (client.threadRepliesRaw channel_id thread_ts)) db

/-- The skip test of `_sync_channel_messages`:
`if oldest and msg.ts <= oldest: continue`. -/
def skipOld (oldest : Option String) (ts : String) : Bool :=
  match oldest with
  | some o => decide (o ≠ "") && strLe ts o
  | none => false

/-- Lines 133–137 of `slack/poller.py`: store the message, then store its
reactions when the fetched snapshot is truthy (non-empty). -/
def persistMessageStep (fail : String → String → Bool) (now : ℚ) (m : Msg)
    (reactions : List SlackReaction) (db : DB) : Except DB (Nat × DB) :=
  match upsert_message_exc fail now m db with
  | Except.error db2 => Except.error db2
  | Except.ok (mid, db2) =>
    Except.ok (mid, if reactions ≠ [] then upsert_reactions now mid reactions db2 else db2)

/-- One iteration of the message loop of `_sync_channel_messages`. -/
def processMessage (client : ClientModel) (fail : String → String → Bool) (now : ℚ)
    (channel_id : String) (oldest : Option String) (msg_data : SlackMsg) (db : DB) :
    Except DB DB :=
  let m := Msg.from_slack channel_id msg_data
  if skipOld oldest m.ts then Except.ok db
  else
    match persistMessageStep fail now m msg_data.reactions db with
    | Except.error db2 => Except.error db2
    | Except.ok (_mid, db3) =>
      match (if m.reply_count > 0 then sync_thread_replies client fail now channel_id m.ts db3
             else Except.ok db3) with
      | Except.error db4 => Except.error db4
      | Except.ok db4 =>
        Except.ok (match m.user_id with
          | some uid => ensure_user_cached client uid db4
          | none => db4)

/-- The message loop of `_sync_channel_messages`, oldest-first. -/
def processMessages (client : ClientModel) (fail : String → String → Bool) (now : ℚ)
    (channel_id : String) (oldest : Option String) : List SlackMsg → DB → Except DB DB
  | [], db => Except.ok db
  | x :: xs, db =>
    match processMessage client fail now channel_id oldest x db with
    | Except.error db2 => Except.error db2
    | Except.ok db2 => processMessages client fail now channel_id oldest xs db2

/-- `SlackPoller._sync_channel_messages` for one channel: read the cursor,
fetch history, early-return on an empty page, process the page oldest-first,
then advance the cursor to the first (newest) fetched timestamp when that
timestamp is truthy. -/
def sync_channel_messages (client : ClientModel) (fail : String → String → Bool) (now : ℚ)
    (channel_id : String) (db : DB) : Except DB DB :=
  let oldest : Option String :=
    match get_sync_state channel_id db with
    | some s => s.last_ts
    | none => none
  match client.history channel_id oldest with
  | [] => Except.ok db
  | first :: rest =>
    let newest_ts := first.ts
    match processMessages client fail now channel_id oldest ((first :: rest).reverse) db with
    | Except.error db2 => Except.error db2
    | Except.ok db2 =>
      Except.ok (if newest_ts ≠ "" then upsert_sync_state now channel_id (some newest_ts) db2
                 else db2)


/-- ASCII lowercasing of one character (the case folding relevant to the
ILIKE patterns and `re.IGNORECASE` searches the code performs). -/
def lowChar (c : Char) : Char :=
  if 65 ≤ c.toNat ∧ c.toNat ≤ 90 then Char.ofNat (c.toNat + 32) else c

/-- Lowercase a char list. -/
def lowerL (l : List Char) : List Char := l.map lowChar

/-- Whether the first list occurs at the very start of the second. -/
def leadsList : List Char → List Char → Bool
  | [], _ => true
  | _ :: _, [] => false
  | a :: as, b :: bs => a == b && leadsList as bs

/-- Position of the first occurrence of `pat` in `s` (`re.search` with an
escaped literal pattern); an empty pattern matches at position 0. -/
def findSub (pat : List Char) : List Char → Option Nat
  | [] => if pat.isEmpty then some 0 else none
  | c :: s2 =>
    if leadsList pat (c :: s2) then some 0
    else (findSub pat s2).map (fun n => n + 1)

/-- Case-insensitive first match position of `q` in `t`
(`re.search(re.escape(q), t, re.IGNORECASE).start()`). -/
def firstMatchCI (q t : String) : Option Nat :=
  findSub (lowerL q.data) (lowerL t.data)

/-- `text ILIKE '%q%'` for a query without ILIKE wildcard characters:
case-insensitive substring containment. -/
def containsCI (q t : String) : Bool := (firstMatchCI q t).isSome

/-- `SlackClient.get_message_link`: drop the dots of the timestamps and
append the thread suffix when the message belongs to a thread other than
itself (`if thread_ts and thread_ts != message_ts`). -/
def get_message_link (channel_id message_ts : String) (thread_ts : Option String) : String :=
  let tsf := String.mk (message_ts.data.filter (fun c => c ≠ '.'))
  let base := "https://slack.com/archives/" ++ channel_id ++ "/p" ++ tsf
  match thread_ts with
  | some t =>
    if t ≠ "" ∧ t ≠ message_ts then
      base ++ "?thread_ts=" ++ String.mk (t.data.filter (fun c => c ≠ '.'))
    else base
  | none => base

/-- `SearchResult` (`services/search.py`): a scored hit.  Scores are modelled
as rationals (the Python floats never overflow or round in the score
formulas the claims mention). -/
structure SearchResult where
  message : Msg
  channel_name : Option String
  user_name : Option String
  score : ℚ
  link : String
  match_type : String
deriving DecidableEq, Repr

/-- `_row_to_message` of the search service: a fetched row as the `Message`
dataclass. -/
def rowToMsg (r : MessageRow) : Msg :=
  { id := some r.id
    channel_id := r.channel_id
    ts := r.ts
    user_id := r.user_id
    text := r.text
    thread_ts := r.thread_ts
    reply_count := r.reply_count
    is_edited := r.is_edited
    message_type := r.message_type
    created_at := r.created_at
    metadata := r.metadata }

/-- Python `a or b` on optional strings: the first truthy value. -/
def orStr (a b : Option String) : Option String :=
  match a with
  | some s => if s ≠ "" then some s else b
  | none => b

/-- `c.name` of the channel row joined on `m.channel_id` (`NULL` when the
left join misses). -/
def channelNameOf (db : DB) (channel_id : String) : Option String :=
  match db.channels.find? (fun c => c.id = channel_id) with
  | some c => c.name
  | none => none

/-- `u.display_name` of the user row left-joined on `m.user_id`. -/
def displayNameOf (db : DB) (user_id : Option String) : Option String :=
  match user_id with
  | some uid =>
    match get_user uid db with
    | some u => u.display_name
    | none => none
  | none => none

/-- Descending-by-`created_at` ordering key used by the SQL
`ORDER BY created_at DESC` clauses (`NULL` sorts first under Postgres's
default `DESC` ordering, matching `none` here). -/
def createdBefore (a b : Option ℚ) : Bool :=
  match a, b with
  | none, _ => true
  | some _, none => false
  | some x, some y => decide (y ≤ x)

/-- Stable insertion of a row into a list sorted by `created_at DESC`. -/
def insCreatedDesc (m : MessageRow) : List MessageRow → List MessageRow
  | [] => [m]
  | y :: ys =>
    if createdBefore y.created_at m.created_at then y :: insCreatedDesc m ys
    else m :: y :: ys

/-- `ORDER BY created_at DESC` over a row list. -/
def sortCreatedDesc (l : List MessageRow) : List MessageRow :=
  l.foldl (fun acc m => insCreatedDesc m acc) []

/-- The `AND created_at > $n` clause (absent when `since` is `NULL`;
a `NULL` `created_at` never satisfies the comparison). -/
def sinceOk (since : Option ℚ) (created_at : Option ℚ) : Bool :=
  match since with
  | none => true
  | some s =>
    match created_at with
    | some t => decide (s < t)
    | none => false

/-- The `_text_search` score: `1.0 - match.start()/len(text)` when the
pattern matches and the text is non-empty, else `0.5`
(`services/search.py` line 168). -/
def textScore (query : String) (text : Option String) : ℚ :=
  let t := match text with | some s => s | none => ""
  match firstMatchCI query t with
  | some i => if t ≠ "" then 1 - (i : ℚ) / (t.length : ℚ) else 1/2
  | none => 1/2

/-- `SearchService._text_search`: rows whose text matches `ILIKE '%query%'`,
newest first, capped at `limit`, each scored by match position. -/
def text_search (query : String) (limit : Nat) (db : DB) : List SearchResult :=
  let rows :=
    (sortCreatedDesc (db.messages.filter (fun m =>
      match m.text with
      | some t => containsCI query t
      | none => false))).take limit
  rows.map (fun m =>
    { message := rowToMsg m
      channel_name := channelNameOf db m.channel_id
      user_name := displayNameOf db m.user_id
      score := textScore query m.text
      link := get_message_link m.channel_id m.ts m.thread_ts
      match_type := "text" })

/-- Stable insertion for `sorted(results, key=lambda r: r.score,
reverse=True)`: a later element goes after every earlier element whose
score is not strictly smaller. -/
def insScoreDesc (x : SearchResult) : List SearchResult → List SearchResult
  | [] => [x]
  | y :: ys =>
    if decide (y.score < x.score) then x :: y :: ys
    else y :: insScoreDesc x ys

/-- `sorted(..., key=score, reverse=True)` (stable, as Python's sort). -/
def sortScoreDesc (l : List SearchResult) : List SearchResult :=
  l.foldl (fun acc x => insScoreDesc x acc) []

/-- The dedup key `f'{channel_id}:{ts}'` of a result. -/
def rkey (r : SearchResult) : String := r.message.channel_id ++ ":" ++ r.message.ts

/-- The `seen`-set loop of `SearchService.search`: keep the first result of
each key. -/
def dedupResults : List SearchResult → List String → List SearchResult
  | [], _ => []
  | r :: rs, seen =>
    if rkey r ∈ seen then dedupResults rs seen
    else r :: dedupResults rs (rkey r :: seen)

/-- `SearchService.search`.  `vectorResults` and `apiResults` stand for the
outputs of `_vector_search` and `_slack_api_search` (both delegate to
external collaborators — the embedding service and the remote search API);
the text source is computed from the store. -/
def search (query : String) (limit : Nat) (useVector useText useApi : Bool)
    (vectorResults apiResults : List SearchResult) (db : DB) : List SearchResult :=
  let results :=
    (if useVector then vectorResults else []) ++
    (if useText then text_search query limit db else []) ++
    (if useApi then apiResults else [])
  (dedupResults (sortScoreDesc results) []).take limit

/-- The `Priority` enum of `services/status.py`. -/
inductive Priority where
  | critical
  | high
  | medium
  | low
deriving DecidableEq, Repr

/-- `Priority.value`: CRITICAL = 1 (mentions), HIGH = 2 (DMs), MEDIUM = 3
(threads), LOW = 4 (channel messages). -/
def Priority.val : Priority → Nat
  | Priority.critical => 1
  | Priority.high => 2
  | Priority.medium => 3
  | Priority.low => 4

/-- A `StatusItem` of `services/status.py`. -/
structure StatusItem where
  priority : Priority
  channel_id : String
  channel_name : Option String
  message_ts : String
  thread_ts : Option String
  user_id : Option String
  user_name : Option String
  text_preview : String
  timestamp : Option ℚ
  link : String
  reason : String
deriving DecidableEq, Repr

/-- `StatusService._truncate`. -/
def truncateText (t : String) (maxLen : Nat) : String :=
  if t.length ≤ maxLen then t
  else String.mk (t.data.take (maxLen - 3)) ++ "..."

/-- `text LIKE '%<@user>%'` — the mention pattern of `get_unread_mentions`
(case-sensitive containment; user ids contain no LIKE wildcards). -/
def mentionsUser (user_id : String) (text : Option String) : Bool :=
  match text with
  | some t => (findSub ("<@" ++ user_id ++ ">").data t.data).isSome
  | none => false

/-- `Repository.get_unread_mentions`: messages whose text mentions the user,
within the window, newest first, capped at 50 rows. -/
def get_unread_mentions (user_id : String) (since : Option ℚ) (db : DB) : List MessageRow :=
  (sortCreatedDesc (db.messages.filter (fun m =>
    mentionsUser user_id m.text && sinceOk since m.created_at))).take 50

/-- Whether the message's channel row exists and has `channel_type = 'im'`
(the `JOIN channels ... WHERE c.channel_type = 'im'` of
`get_dm_messages`). -/
def inImChannel (db : DB) (m : MessageRow) : Bool :=
  match db.channels.find? (fun c => c.id = m.channel_id) with
  | some c => c.channel_type = "im"
  | none => false

/-- `Repository.get_dm_messages`: messages of `'im'`-typed channels within
the window, newest first, capped at 50 rows. -/
def get_dm_messages (since : Option ℚ) (db : DB) : List MessageRow :=
  (sortCreatedDesc (db.messages.filter (fun m =>
    inImChannel db m && sinceOk since m.created_at))).take 50

/-- `COALESCE(thread_ts, ts)` of a row. -/
def coalesceTs (m : MessageRow) : String :=
  match m.thread_ts with
  | some t => t
  | none => m.ts

/-- Membership in the `user_threads` CTE join of
`get_threads_with_replies`: some message of the user spans a thread this
row belongs to. -/
def inUserThread (user_id : String) (db : DB) (m : MessageRow) : Bool :=
  db.messages.any (fun p =>
    p.user_id = some user_id ∧ p.channel_id = m.channel_id ∧
      (m.ts = coalesceTs p ∨ m.thread_ts = some (coalesceTs p)))

/-- `Repository.get_threads_with_replies`: rows (with their channel name)
of messages in threads the user participated in, authored by someone else
(SQL `user_id != $1` drops `NULL` authors), within the window, newest
first, capped at 100.  The inner join on `channels` requires the channel
row.  A message matching several of the user's thread keys appears once
here (the duplicate join rows would be dropped by the caller's per-thread
dedup; only the cap counting could differ). -/
def get_threads_with_replies (user_id : String) (since : Option ℚ) (db : DB) :
    List (MessageRow × Option String) :=
  ((sortCreatedDesc (db.messages.filter (fun m =>
      inUserThread user_id db m &&
      (db.channels.any (fun c => c.id = m.channel_id)) &&
      (match m.user_id with
       | some u => decide (u ≠ user_id)
       | none => false) &&
      sinceOk since m.created_at))).take 100).map
    (fun m => (m, channelNameOf db m.channel_id))

/-- Build one status item from a stored row (the common enrichment done in
`_get_mentions` / `_get_dms`). -/
def mkStatusItem (db : DB) (p : Priority) (reason : String) (m : MessageRow) : StatusItem :=
  { priority := p
    channel_id := m.channel_id
    channel_name := channelNameOf db m.channel_id
    message_ts := m.ts
    thread_ts := m.thread_ts
    user_id := m.user_id
    user_name :=
      match m.user_id with
      | some uid =>
        match get_user uid db with
        | some u => orStr u.display_name u.name
        | none => none
      | none => none
    text_preview := truncateText (match m.text with | some t => t | none => "") 100
    timestamp := m.created_at
    link := get_message_link m.channel_id m.ts m.thread_ts
    reason := reason }

/-- `StatusService._get_mentions`. -/
def statusGetMentions (me : String) (since : ℚ) (db : DB) : List StatusItem :=
  (get_unread_mentions me (some since) db).map
    (mkStatusItem db Priority.critical "You were mentioned")

/-- `StatusService._get_dms`: the DM rows minus the user's own messages. -/
def statusGetDms (me : String) (since : ℚ) (db : DB) : List StatusItem :=
  ((get_dm_messages (some since) db).filter (fun m => m.user_id ≠ some me)).map
    (mkStatusItem db Priority.high "Direct message")

/-- The thread key `f'{channel_id}:{thread_ts or ts}'` of a fetched row. -/
def threadKeyOf (m : MessageRow) : String :=
  m.channel_id ++ ":" ++
    (match m.thread_ts with
     | some t => if t ≠ "" then t else m.ts
     | none => m.ts)

/-- The `seen_threads` dedup loop of `_get_thread_replies`. -/
def dedupThreads : List (MessageRow × Option String) → List String → List (MessageRow × Option String)
  | [], _ => []
  | r :: rs, seen =>
    if threadKeyOf r.1 ∈ seen then dedupThreads rs seen
    else r :: dedupThreads rs (threadKeyOf r.1 :: seen)

/-- `StatusService._get_thread_replies`. -/
def statusGetThreadReplies (me : String) (since : ℚ) (db : DB) : List StatusItem :=
  (dedupThreads (get_threads_with_replies me (some since) db) []).map
    (fun r =>
      { priority := Priority.medium
        channel_id := r.1.channel_id
        channel_name := r.2
        message_ts := r.1.ts
        thread_ts := r.1.thread_ts
        user_id := r.1.user_id
        user_name :=
          match r.1.user_id with
          | some uid =>
            match get_user uid db with
            | some u => orStr u.display_name u.name
            | none => none
          | none => none
        text_preview := truncateText (match r.1.text with | some t => t | none => "") 100
        timestamp := r.1.created_at
        link := get_message_link r.1.channel_id r.1.ts r.1.thread_ts
        reason := "Reply in thread you participated in" })

/-- `-(x.timestamp.timestamp() if x.timestamp else 0)` without the sign:
the timestamp sort key of `get_status`. -/
def itemTsVal (x : StatusItem) : ℚ :=
  match x.timestamp with
  | some t => t
  | none => 0

/-- Strict comparison of the sort keys
`(x.priority.value, -(timestamp or 0))`. -/
def itemBefore (a b : StatusItem) : Bool :=
  decide (a.priority.val < b.priority.val) ||
    (decide (a.priority.val = b.priority.val) && decide (itemTsVal b < itemTsVal a))

/-- Stable insertion for `items.sort(key=...)`: a later element goes after
every earlier element it is not strictly before. -/
def insItem (x : StatusItem) : List StatusItem → List StatusItem
  | [] => [x]
  | y :: ys => if itemBefore x y then x :: y :: ys else y :: insItem x ys

/-- `items.sort(key=lambda x: (x.priority.value, -(...)))` (stable). -/
def sortItems (l : List StatusItem) : List StatusItem :=
  l.foldl (fun acc x => insItem x acc) []

/-- The item list of `StatusService.get_status`: mentions, then DMs, then
thread replies, sorted by `(priority.value, -timestamp)`.  `since` is the
window lower bound `now - hours_back` computed by the caller; the pending
reminders are fetched separately and are not part of this list. -/
def get_status_items (me : String) (since : ℚ) (db : DB) : List StatusItem :=
  sortItems
    (statusGetMentions me since db ++ statusGetDms me since db ++
      statusGetThreadReplies me since db)

/-- Stable insertion of a raw message into a list sorted newest-first by
`ts` (Python string comparison). -/
def insTsDesc (m : SlackMsg) : List SlackMsg → List SlackMsg
  | [] => [m]
  | y :: ys => if strLt y.ts m.ts then m :: y :: ys else y :: insTsDesc m ys

/-- Sort raw messages newest-first by `ts`. -/
def sortTsDesc (l : List SlackMsg) : List SlackMsg :=
  l.foldl (fun acc m => insTsDesc m acc) []

/-- Modelled from the spec: the remote history endpoint behind
`SlackClient.get_channel_history` is an external collaborator (spec §6);
against a fixed remote message set `R` for the channel, a fetch returns the
messages strictly newer than the truthy lower bound (spec §4.1: "fetch all
messages newer than that channel's cursor", exclusive; `oldest` is only
passed when truthy), newest-first (spec §4.1 pagination protocol), capped
at the 100-item default of `get_channel_history`. -/
def histOf (R : List SlackMsg) : String → Option String → List SlackMsg :=
  fun _ oldest =>
    (sortTsDesc (R.filter (fun m =>
      match oldest with
      | some o => if o ≠ "" then strLt o m.ts else true
      | none => true))).take 100

/-- The filter a history fetch applies against the remote set: strictly
newer than a truthy lower bound, everything otherwise. -/
def predOldest (oldest : Option String) (m : SlackMsg) : Bool :=
  match oldest with
  | some o => if o ≠ "" then strLt o m.ts else true
  | none => true

/-- A client whose history is served from the fixed remote set `R`. -/
def clientOfR (R : List SlackMsg) : ClientModel :=
  { history := histOf R
    threadRepliesRaw := fun _ _ => []
    userInfo := fun _ => none }

/-- The `(message_id, emoji_name, user_id)` triples stored for a message. -/
def reactionTriples (db : DB) (mid : Nat) : List (Nat × String × String) :=
  (db.reactions.filter (fun r => r.message_id = mid)).map
    (fun r => (r.message_id, r.name, r.user_id))

/-- The `(message_id, emoji_name, user_id)` triples of a fetched snapshot. -/
def snapshotTriples (mid : Nat) (reactions : List SlackReaction) :
    List (Nat × String × String) :=
  reactions.foldr (fun re acc => re.users.map (fun u => (mid, re.name, u)) ++ acc) []

/-- The stored rows that are replies of the thread rooted at `pts` in
channel `ch`. -/
def threadRows (db : DB) (ch pts : String) : List MessageRow :=
  db.messages.filter (fun r => r.channel_id = ch ∧ r.thread_ts = some pts)

/-- Reaction triples of a message in the state a sync run ended in
(`none` when the run raised). -/
def reactAfter (e : Except DB DB) (mid : Nat) : Option (List (Nat × String × String)) :=
  match e with
  | Except.ok d => some (reactionTriples d mid)
  | Except.error _ => none

/-- Non-strict order on the status sort keys
`(priority.value, -(timestamp or 0))`. -/
def itemKeyLe (a b : StatusItem) : Prop :=
  a.priority.val < b.priority.val ∨
    (a.priority.val = b.priority.val ∧ itemTsVal b ≤ itemTsVal a)

/-- An environment in which no persistence call fails. -/
def failNone : String → String → Bool := fun _ _ => false

/-- A client returning nothing at all. -/
def clientEmpty : ClientModel :=
  { history := fun _ _ => []
    threadRepliesRaw := fun _ _ => []
    userInfo := fun _ => none }

/-- The empty store. -/
def db0 : DB := ⟨[], [], [], [], [], 0, 0⟩

/-- A re-fetched message whose reaction snapshot is empty. -/
def msgC : SlackMsg := ⟨"100.000001", none, some "hello", none, 0, false, "message", [], ""⟩

/-- The stored row of `msgC` from an earlier sync. -/
def rowC : MessageRow :=
  ⟨0, "C", "100.000001", none, some "hello", none, 0, false, "message", some 1, some 1, ""⟩

/-- A store holding `msgC`'s row together with a reaction row from an
earlier snapshot, and no cursor yet (as after a run that stopped before
the cursor write). -/
def dbC : DB := ⟨[], [], [rowC], [⟨0, 0, "+1", "U9", 1⟩], [], 1, 1⟩

/-- A client whose history fetch re-delivers `msgC`, now without
reactions. -/
def clientC : ClientModel :=
  { history := fun ch old => if ch = "C" ∧ old = none then [msgC] else []
    threadRepliesRaw := fun _ _ => []
    userInfo := fun _ => none }

/-- A page message that will persist fine. -/
def msg102 : SlackMsg := ⟨"102", none, some "b", none, 0, false, "message", [], ""⟩

/-- A page message whose persistence will fail. -/
def msg101 : SlackMsg := ⟨"101", none, some "a", none, 0, false, "message", [], ""⟩

/-- A client delivering a two-message page, newest first. -/
def client2 : ClientModel :=
  { history := fun ch old => if ch = "C" ∧ old = none then [msg102, msg101] else []
    threadRepliesRaw := fun _ _ => []
    userInfo := fun _ => none }

/-- An environment in which persisting the message at ts `"101"` raises. -/
def fail2 : String → String → Bool := fun _ ts => ts = "101"

/-- A store whose channel `"C"` cursor stands at `"100"`. -/
def db3 : DB := ⟨[], [], [], [], [⟨"C", some "100", 5⟩], 0, 0⟩

/-- The stored message of search Scenario D (`"deploy"` at position 8 of a
23-character text). -/
def rowW : MessageRow :=
  ⟨0, "C", "100.000001", some "U7", some "we will deploy tonight!", none, 0, false,
    "message", some 1, some 1, ""⟩

/-- A store holding only `rowW`. -/
def dbW : DB := ⟨[], [], [rowW], [], [], 1, 0⟩

/-- The text-search hit produced for `rowW`. -/
def resW : SearchResult :=
  { message := rowToMsg rowW
    channel_name := none
    user_name := none
    score := textScore "deploy" (some "we will deploy tonight!")
    link := get_message_link "C" "100.000001" none
    match_type := "text" }

/-- A store with one group-dm (`mpim`) channel containing a fresh message
by another user. -/
def dbM : DB :=
  ⟨[⟨"G", some "grp", "mpim", false⟩], [],
    [⟨0, "G", "300.1", some "U2", some "hi", none, 0, false, "message", some 1, some 1, ""⟩],
    [], [], 1, 0⟩

/-- A store with one direct-message (`im`) channel containing two fresh
messages by another user. -/
def dbD : DB :=
  ⟨[⟨"D", some "dmchan", "im", false⟩], [],
    [⟨0, "D", "500.1", some "U2", some "yo", none, 0, false, "message", some 2, some 2, ""⟩,
     ⟨1, "D", "500.2", some "U2", some "hey", none, 0, false, "message", some 3, some 3, ""⟩],
    [], [], 2, 0⟩

/-- Thread parent of Scenario C (`ts=200.0`, `reply_count=2`). -/
def parentT : SlackMsg := ⟨"200.0", some "U3", some "root", none, 2, false, "message", [], ""⟩

/-- First reply of Scenario C. -/
def repT1 : SlackMsg := ⟨"200.1", some "U4", some "r1", some "200.0", 0, false, "message", [], ""⟩

/-- Second reply of Scenario C. -/
def repT2 : SlackMsg := ⟨"200.2", some "U5", some "r2", some "200.0", 0, false, "message", [], ""⟩

/-- A client whose thread fetch for `200.0` returns the parent plus the two
replies. -/
def clientT : ClientModel :=
  { history := fun _ _ => []
    threadRepliesRaw := fun ch ts => if ch = "C" ∧ ts = "200.0" then [parentT, repT1, repT2] else []
    userInfo := fun _ => none }

/-- An existing stored row about to be re-upserted. -/
def rowU : MessageRow :=
  ⟨0, "C", "100.1", some "U1", some "old", none, 0, false, "message", some 1, some 1, "m0"⟩

/-- A store holding only `rowU`. -/
def dbU : DB := ⟨[], [], [rowU], [], [], 1, 0⟩

/-- An incoming message carrying `rowU`'s key with fresh content. -/
def mU : Msg := ⟨none, "C", "100.1", some "U2", some "new", some "100.0", 3, true, "message", some 9, "m1"⟩

/-- A one-message remote set for exercising idempotence. -/
def msgW1 : SlackMsg := ⟨"101", none, some "x", none, 0, false, "message", [], ""⟩

/-- The store after the first sync of `msgW1` from the empty store at
time 1. -/
def db1W : DB :=
  ⟨[], [],
    [{ id := 0
       channel_id := "C"
       ts := "101"
       user_id := none
       text := some "x"
       thread_ts := none
       reply_count := 0
       is_edited := false
       message_type := "message"
       created_at := (Msg.from_slack "C" msgW1).created_at
       updated_at := some 1
       metadata := "" }],
    [], [⟨"C", some "101", 1⟩], 1, 0⟩

/-- The database state a poller step ended in, whether it returned or
raised (Python writes survive an exception). -/
def outDB : Except DB DB → DB
  | Except.ok d => d
  | Except.error d => d

theorem dedupResults_spec (l : List SearchResult) :
    ∀ seen, List.Pairwise (fun a b => rkey a ≠ rkey b) (dedupResults l seen) ∧
      ∀ r ∈ dedupResults l seen, rkey r ∉ seen := by
  induction l with
  | nil => intro seen; simp [dedupResults]
  | cons x xs ih =>
    intro seen
    by_cases hx : rkey x ∈ seen
    · simpa [dedupResults, hx] using ih seen
    · have h2 := ih (rkey x :: seen)
      refine ⟨?_, ?_⟩
      · simp only [dedupResults, if_neg hx]
        refine List.Pairwise.cons ?_ h2.1
        intro b hb
        have := h2.2 b hb
        simp only [List.mem_cons] at this
        intro hkey
        exact this (Or.inl hkey.symm)
      · intro r hr
        simp only [dedupResults, if_neg hx, List.mem_cons] at hr
        rcases hr with rfl | hr
        · exact hx
        · have := h2.2 r hr
          simp only [List.mem_cons] at this
          exact fun hs => this (Or.inr hs)

theorem rkey_eq_of_keys (a b : SearchResult)
    (hc : a.message.channel_id = b.message.channel_id) (ht : a.message.ts = b.message.ts) :
    rkey a = rkey b := by
  simp [rkey, hc, ht]

/-- C5: for every query and combination of enabled sources, the search
result list contains no two entries sharing the same `(channel_id, ts)`
and has length at most `limit`. -/
theorem c5_search_dedup_limit (query : String) (limit : Nat) (useVector useText useApi : Bool)
    (vectorResults apiResults : List SearchResult) (db : DB) :
    List.Pairwise
      (fun a b => ¬(a.message.channel_id = b.message.channel_id ∧ a.message.ts = b.message.ts))
      (search query limit useVector useText useApi vectorResults apiResults db) ∧
    (search query limit useVector useText useApi vectorResults apiResults db).length ≤ limit := by
  constructor
  · have h := (dedupResults_spec
      (sortScoreDesc
        ((if useVector then vectorResults else []) ++
          (if useText then text_search query limit db else []) ++
          (if useApi then apiResults else []))) []).1
    have hsub : (search query limit useVector useText useApi vectorResults apiResults db).Sublist
        (dedupResults (sortScoreDesc
          ((if useVector then vectorResults else []) ++
            (if useText then text_search query limit db else []) ++
            (if useApi then apiResults else []))) []) := by
      simp only [search]
      exact List.take_sublist _ _
    exact (h.sublist hsub).imp (fun hne hk => hne (rkey_eq_of_keys _ _ hk.1 hk.2))
  · simp only [search]
    exact List.length_take_le _ _

/-- C6: every text-search result for a stored message with non-empty text in
which the query first matches at position `i` carries the score
`1 - i / textLength`. -/
theorem c6_text_score (query : String) (limit : Nat) (db : DB) (r : SearchResult)
    (hr : r ∈ text_search query limit db) (t : String) (i : Nat)
    (ht : r.message.text = some t) (hne : t ≠ "") (hm : firstMatchCI query t = some i) :
    r.score = 1 - (i : ℚ) / (t.length : ℚ) := by
  simp only [text_search, List.mem_map] at hr
  obtain ⟨m, _hm2, rfl⟩ := hr
  simp only [rowToMsg] at ht
  simp [textScore, ht, hm, hne]

/-- Witness for C6 at search Scenario D: query `"deploy"` matches the
stored text `"we will deploy tonight!"` (length 23) at position 8, and the
produced result's score is `1 - 8/23`. -/
theorem c6_witness :
    resW ∈ text_search "deploy" 20 dbW ∧
    resW.message.text = some "we will deploy tonight!" ∧
    firstMatchCI "deploy" "we will deploy tonight!" = some 8 ∧
    resW.score = 1 - (8 : ℚ) / 23 := by
  have hmem : text_search "deploy" 20 dbW = [resW] := rfl
  have hm : resW ∈ text_search "deploy" 20 dbW := by
    rw [hmem]; exact List.mem_singleton.mpr rfl
  refine ⟨hm, rfl, by decide, ?_⟩
  have h := c6_text_score "deploy" 20 dbW resW hm "we will deploy tonight!" 8 rfl
    (by decide) (by decide)
  have hlen : "we will deploy tonight!".length = 23 := rfl
  rw [h, hlen]
  norm_num

/-- C10: re-upserting a message whose `(channel_id, ts)` key exists keeps
the row count, updates only user_id, text, thread_ts, reply_count,
is_edited, updated_at and metadata of the matching rows, and leaves id,
channel_id, ts, created_at and message_type (and every other row)
unchanged. -/
theorem c10_upsert_frame (now : ℚ) (m : Msg) (db : DB)
    (hex : ∃ r ∈ db.messages, r.channel_id = m.channel_id ∧ r.ts = m.ts) :
    (upsert_message now m db).2.messages.length = db.messages.length ∧
    ∀ j (hj : j < db.messages.length),
      ∃ hj2 : j < (upsert_message now m db).2.messages.length,
        ((upsert_message now m db).2.messages[j]).id = (db.messages[j]).id ∧
        ((upsert_message now m db).2.messages[j]).channel_id = (db.messages[j]).channel_id ∧
        ((upsert_message now m db).2.messages[j]).ts = (db.messages[j]).ts ∧
        ((upsert_message now m db).2.messages[j]).created_at = (db.messages[j]).created_at ∧
        ((upsert_message now m db).2.messages[j]).message_type = (db.messages[j]).message_type ∧
        ((db.messages[j]).channel_id = m.channel_id ∧ (db.messages[j]).ts = m.ts →
          ((upsert_message now m db).2.messages[j]).user_id = m.user_id ∧
          ((upsert_message now m db).2.messages[j]).text = m.text ∧
          ((upsert_message now m db).2.messages[j]).thread_ts = m.thread_ts ∧
          ((upsert_message now m db).2.messages[j]).reply_count = m.reply_count ∧
          ((upsert_message now m db).2.messages[j]).is_edited = m.is_edited ∧
          ((upsert_message now m db).2.messages[j]).updated_at = some now ∧
          ((upsert_message now m db).2.messages[j]).metadata = m.metadata) ∧
        (¬((db.messages[j]).channel_id = m.channel_id ∧ (db.messages[j]).ts = m.ts) →
          (upsert_message now m db).2.messages[j] = db.messages[j]) := by
  obtain ⟨r, hrmem, hrkey⟩ := hex
  cases hfe : db.messages.find? (fun r2 => r2.channel_id = m.channel_id ∧ r2.ts = m.ts) with
  | none =>
    exfalso
    have hnone := List.find?_eq_none.mp hfe r hrmem
    simp [hrkey.1, hrkey.2] at hnone
  | some r0 =>
    have hmsgs : (upsert_message now m db).2.messages =
        db.messages.map (fun r2 =>
          if r2.channel_id = m.channel_id ∧ r2.ts = m.ts then
            { r2 with
                user_id := m.user_id
                text := m.text
                thread_ts := m.thread_ts
                reply_count := m.reply_count
                is_edited := m.is_edited
                updated_at := some now
                metadata := m.metadata }
          else r2) := by
      simp only [upsert_message, hfe]
    constructor
    · rw [hmsgs, List.length_map]
    · intro j hj
      have hj2 : j < (upsert_message now m db).2.messages.length := by
        rw [hmsgs, List.length_map]; exact hj
      refine ⟨hj2, ?_⟩
      have hget : (upsert_message now m db).2.messages[j] =
          (if (db.messages[j]).channel_id = m.channel_id ∧ (db.messages[j]).ts = m.ts then
            { db.messages[j] with
                user_id := m.user_id
                text := m.text
                thread_ts := m.thread_ts
                reply_count := m.reply_count
                is_edited := m.is_edited
                updated_at := some now
                metadata := m.metadata }
          else db.messages[j]) := by
        simp only [hmsgs, List.getElem_map]
      by_cases hc : (db.messages[j]).channel_id = m.channel_id ∧ (db.messages[j]).ts = m.ts
      · rw [hget, if_pos hc]
        exact ⟨rfl, rfl, rfl, rfl, rfl,
          fun _ => ⟨rfl, rfl, rfl, rfl, rfl, rfl, rfl⟩, fun hn => absurd hc hn⟩
      · rw [hget, if_neg hc]
        exact ⟨rfl, rfl, rfl, rfl, rfl, fun h2 => absurd h2 hc, fun _ => rfl⟩

/-- Witness for C10: re-upserting `mU` over `dbU` (whose single row carries
`mU`'s key) satisfies the frame property. -/
theorem c10_witness :
    (∃ r ∈ dbU.messages, r.channel_id = mU.channel_id ∧ r.ts = mU.ts) ∧
    ((upsert_message 9 mU dbU).2.messages.length = dbU.messages.length ∧
      ∀ j (hj : j < dbU.messages.length),
        ∃ hj2 : j < (upsert_message 9 mU dbU).2.messages.length,
          ((upsert_message 9 mU dbU).2.messages[j]).id = (dbU.messages[j]).id ∧
          ((upsert_message 9 mU dbU).2.messages[j]).channel_id = (dbU.messages[j]).channel_id ∧
          ((upsert_message 9 mU dbU).2.messages[j]).ts = (dbU.messages[j]).ts ∧
          ((upsert_message 9 mU dbU).2.messages[j]).created_at = (dbU.messages[j]).created_at ∧
          ((upsert_message 9 mU dbU).2.messages[j]).message_type = (dbU.messages[j]).message_type ∧
          ((dbU.messages[j]).channel_id = mU.channel_id ∧ (dbU.messages[j]).ts = mU.ts →
            ((upsert_message 9 mU dbU).2.messages[j]).user_id = mU.user_id ∧
            ((upsert_message 9 mU dbU).2.messages[j]).text = mU.text ∧
            ((upsert_message 9 mU dbU).2.messages[j]).thread_ts = mU.thread_ts ∧
            ((upsert_message 9 mU dbU).2.messages[j]).reply_count = mU.reply_count ∧
            ((upsert_message 9 mU dbU).2.messages[j]).is_edited = mU.is_edited ∧
            ((upsert_message 9 mU dbU).2.messages[j]).updated_at = some 9 ∧
            ((upsert_message 9 mU dbU).2.messages[j]).metadata = mU.metadata) ∧
          (¬((dbU.messages[j]).channel_id = mU.channel_id ∧ (dbU.messages[j]).ts = mU.ts) →
            (upsert_message 9 mU dbU).2.messages[j] = dbU.messages[j])) :=
  ⟨by decide, c10_upsert_frame 9 mU dbU (by decide)⟩

theorem insertReaction_messages (now : ℚ) (mid : Nat) (n u : String) (db : DB) :
    (insertReaction now mid n u db).messages = db.messages := by
  unfold insertReaction; split <;> rfl

theorem foldl_messages {β : Type} (f : DB → β → DB) (h : ∀ d b, (f d b).messages = d.messages) :
    ∀ (l : List β) (d : DB), (List.foldl f d l).messages = d.messages := by
  intro l
  induction l with
  | nil => intro d; rfl
  | cons x xs ih => intro d; rw [List.foldl_cons, ih, h]

theorem upsert_reactions_messages (now : ℚ) (mid : Nat) (rs : List SlackReaction) (db : DB) :
    (upsert_reactions now mid rs db).messages = db.messages := by
  unfold upsert_reactions
  rw [foldl_messages]
  intro d re
  exact foldl_messages _ (fun d2 u => insertReaction_messages now mid re.name u d2) re.users d

theorem upsert_user_messages (u : UserRow) (db : DB) :
    (upsert_user u db).messages = db.messages := by
  unfold upsert_user; split <;> rfl

theorem ensure_user_cached_messages (client : ClientModel) (uid : String) (db : DB) :
    (ensure_user_cached client uid db).messages = db.messages := by
  unfold ensure_user_cached
  cases get_user uid db with
  | some u => rfl
  | none =>
    cases client.userInfo uid with
    | none => rfl
    | some u => exact upsert_user_messages u db

theorem upsert_message_insert (now : ℚ) (m : Msg) (db : DB)
    (hnone : db.messages.find? (fun r => r.channel_id = m.channel_id ∧ r.ts = m.ts) = none) :
    upsert_message now m db =
      (db.nextMessageId,
       { db with
          messages := db.messages ++
            [{ id := db.nextMessageId
               channel_id := m.channel_id
               ts := m.ts
               user_id := m.user_id
               text := m.text
               thread_ts := m.thread_ts
               reply_count := m.reply_count
               is_edited := m.is_edited
               message_type := m.message_type
               created_at := m.created_at
               updated_at := some now
               metadata := m.metadata }]
          nextMessageId := db.nextMessageId + 1 }) := by
  simp only [upsert_message, hnone]

theorem syncRepliesList_count (client : ClientModel) (fail : String → String → Bool) (now : ℚ)
    (ch pts : String) :
    ∀ (rs : List SlackMsg) (db : DB),
      (∀ r ∈ rs, fail ch r.ts = false) →
      (∀ r ∈ rs, ∀ row ∈ db.messages, ¬(row.channel_id = ch ∧ row.ts = r.ts)) →
      (rs.map SlackMsg.ts).Nodup →
      (∀ r ∈ rs, r.thread_ts = some pts) →
      ∃ db2, syncRepliesList client fail now ch rs db = Except.ok db2 ∧
        (threadRows db2 ch pts).length = (threadRows db ch pts).length + rs.length := by
  intro rs
  induction rs with
  | nil =>
    intro db _ _ _ _
    exact ⟨db, rfl, by simp⟩
  | cons r rest ih =>
    intro db hfail hfresh hnodup hthread
    have hff : fail ch r.ts = false := hfail r (List.mem_cons_self r rest)
    have hfind : db.messages.find?
        (fun row => row.channel_id = (Msg.from_slack ch r).channel_id ∧
          row.ts = (Msg.from_slack ch r).ts) = none := by
      refine List.find?_eq_none.mpr ?_
      intro row hrow
      have := hfresh r (List.mem_cons_self r rest) row hrow
      simpa [Msg.from_slack] using this
    have hup := upsert_message_insert now (Msg.from_slack ch r) db hfind
    have hexc : upsert_message_exc fail now (Msg.from_slack ch r) db =
        Except.ok (upsert_message now (Msg.from_slack ch r) db) := by
      simp [upsert_message_exc, Msg.from_slack, hff]
    have hshape : syncRepliesList client fail now ch (r :: rest) db =
        syncRepliesList client fail now ch rest
          (match (Msg.from_slack ch r).user_id with
           | some uid =>
             ensure_user_cached client uid
               (if r.reactions ≠ [] then
                 upsert_reactions now (upsert_message now (Msg.from_slack ch r) db).1
                   r.reactions (upsert_message now (Msg.from_slack ch r) db).2
                else (upsert_message now (Msg.from_slack ch r) db).2)
           | none =>
             (if r.reactions ≠ [] then
               upsert_reactions now (upsert_message now (Msg.from_slack ch r) db).1
                 r.reactions (upsert_message now (Msg.from_slack ch r) db).2
              else (upsert_message now (Msg.from_slack ch r) db).2)) := by
      rw [syncRepliesList, hexc, hup]
    set db4 : DB :=
      (match (Msg.from_slack ch r).user_id with
       | some uid =>
         ensure_user_cached client uid
           (if r.reactions ≠ [] then
             upsert_reactions now (upsert_message now (Msg.from_slack ch r) db).1
               r.reactions (upsert_message now (Msg.from_slack ch r) db).2
            else (upsert_message now (Msg.from_slack ch r) db).2)
       | none =>
         (if r.reactions ≠ [] then
           upsert_reactions now (upsert_message now (Msg.from_slack ch r) db).1
             r.reactions (upsert_message now (Msg.from_slack ch r) db).2
          else (upsert_message now (Msg.from_slack ch r) db).2)) with hdb4
    have hmid : db4.messages = db.messages ++
        [{ id := db.nextMessageId
           channel_id := (Msg.from_slack ch r).channel_id
           ts := (Msg.from_slack ch r).ts
           user_id := (Msg.from_slack ch r).user_id
           text := (Msg.from_slack ch r).text
           thread_ts := (Msg.from_slack ch r).thread_ts
           reply_count := (Msg.from_slack ch r).reply_count
           is_edited := (Msg.from_slack ch r).is_edited
           message_type := (Msg.from_slack ch r).message_type
           created_at := (Msg.from_slack ch r).created_at
           updated_at := some now
           metadata := (Msg.from_slack ch r).metadata }] := by
      have hbase : (if r.reactions ≠ [] then
          upsert_reactions now (upsert_message now (Msg.from_slack ch r) db).1
            r.reactions (upsert_message now (Msg.from_slack ch r) db).2
         else (upsert_message now (Msg.from_slack ch r) db).2).messages =
          (upsert_message now (Msg.from_slack ch r) db).2.messages := by
        split
        · exact upsert_reactions_messages _ _ _ _
        · rfl
      rw [hdb4]
      cases huser : (Msg.from_slack ch r).user_id with
      | some uid =>
        simp only []
        rw [ensure_user_cached_messages, hbase, hup]
        simp [huser]
      | none =>
        simp only []
        rw [hbase, hup]
        simp [huser]
    have hnd : (∀ x ∈ rest, ¬ x.ts = r.ts) ∧ (rest.map SlackMsg.ts).Nodup := by
      simpa using hnodup
    have hfresh4 : ∀ r2 ∈ rest, ∀ row ∈ db4.messages, ¬(row.channel_id = ch ∧ row.ts = r2.ts) := by
      intro r2 hr2 row hrow
      rw [hmid] at hrow
      rcases List.mem_append.mp hrow with hold | hnew
      · exact hfresh r2 (List.mem_cons_of_mem r hr2) row hold
      · simp only [List.mem_singleton] at hnew
        subst hnew
        intro hk
        have hts : r.ts = r2.ts := by simpa [Msg.from_slack] using hk.2
        exact hnd.1 r2 hr2 hts.symm
    have hrest := ih db4 (fun r2 hr2 => hfail r2 (List.mem_cons_of_mem r hr2)) hfresh4
      hnd.2 (fun r2 hr2 => hthread r2 (List.mem_cons_of_mem r hr2))
    obtain ⟨db2, hrun, hcount⟩ := hrest
    refine ⟨db2, ?_, ?_⟩
    · rw [hshape]; exact hrun
    · have hth4 : (threadRows db4 ch pts).length = (threadRows db ch pts).length + 1 := by
        have hp2 : r.thread_ts = some pts := hthread r (List.mem_cons_self r rest)
        simp only [threadRows, hmid, List.filter_append]
        rw [List.length_append]
        simp [Msg.from_slack, hp2]
      rw [hcount, hth4]
      simp [List.length_cons]
      omega

/-- C9: the thread-replies fetch drops the leading parent entry (returning
the empty list when the raw response has at most one entry), and syncing a
thread whose fetch returns the parent plus `k` fresh replies (each carrying
the parent's ts as `thread_ts`) persists exactly `k` reply rows with
`thread_ts` equal to the parent's ts. -/
theorem c9_thread_replies (client : ClientModel) (fail : String → String → Bool) (now : ℚ)
    (ch pts : String) (parent : SlackMsg) (replies : List SlackMsg) (db : DB)
    (hraw : client.threadRepliesRaw ch pts = parent :: replies)
    (hfail : ∀ r ∈ replies, fail ch r.ts = false)
    (hfresh : ∀ r ∈ replies, ∀ row ∈ db.messages, ¬(row.channel_id = ch ∧ row.ts = r.ts))
    (hnodup : (replies.map SlackMsg.ts).Nodup)
    (hthread : ∀ r ∈ replies, r.thread_ts = some pts)
    (hempty : threadRows db ch pts = []) :
    get_thread_replies (client.threadRepliesRaw ch pts) = replies ∧
    (∀ raw : List SlackMsg, raw.length ≤ 1 → get_thread_replies raw = []) ∧
    ∃ db2, sync_thread_replies client fail now ch pts db = Except.ok db2 ∧
      (threadRows db2 ch pts).length = replies.length := by
  have hget : get_thread_replies (parent :: replies) = replies := by
    cases replies with
    | nil => simp [get_thread_replies]
    | cons a as => simp [get_thread_replies]
  refine ⟨by rw [hraw]; exact hget, ?_, ?_⟩
  · intro raw hlen
    match raw with
    | [] => simp [get_thread_replies]
    | [x] => simp [get_thread_replies]
    | x :: y :: rest => simp at hlen
  · have hrun := syncRepliesList_count client fail now ch pts replies db hfail hfresh hnodup hthread
    obtain ⟨db2, hok, hcount⟩ := hrun
    refine ⟨db2, ?_, ?_⟩
    · unfold sync_thread_replies
      rw [hraw, hget]
      exact hok
    · rw [hcount, hempty]
      simp

/-- Witness for C9 at Scenario C: the thread fetch for parent `200.0`
returns the parent plus two replies; the client drops the parent and the
sync persists exactly 2 reply rows with `thread_ts = 200.0`. -/
theorem c9_witness :
    get_thread_replies (clientT.threadRepliesRaw "C" "200.0") = [repT1, repT2] ∧
    ∃ db2, sync_thread_replies clientT failNone 4 "C" "200.0" db0 = Except.ok db2 ∧
      (threadRows db2 "C" "200.0").length = 2 := by
  have h := c9_thread_replies clientT failNone 4 "C" "200.0" parentT [repT1, repT2] db0
    (by decide) (by decide) (by decide) (by decide) (by decide) (by decide)
  obtain ⟨h1, _h2, db2, h3, h4⟩ := h
  exact ⟨h1, db2, h3, by simpa using h4⟩

theorem insertReaction_sync_state (now : ℚ) (mid : Nat) (n u : String) (db : DB) :
    (insertReaction now mid n u db).sync_state = db.sync_state := by
  unfold insertReaction; split <;> rfl

theorem foldl_sync_state {β : Type} (f : DB → β → DB)
    (h : ∀ d b, (f d b).sync_state = d.sync_state) :
    ∀ (l : List β) (d : DB), (List.foldl f d l).sync_state = d.sync_state := by
  intro l
  induction l with
  | nil => intro d; rfl
  | cons x xs ih => intro d; rw [List.foldl_cons, ih, h]

theorem upsert_reactions_sync_state (now : ℚ) (mid : Nat) (rs : List SlackReaction) (db : DB) :
    (upsert_reactions now mid rs db).sync_state = db.sync_state := by
  unfold upsert_reactions
  rw [foldl_sync_state]
  intro d re
  exact foldl_sync_state _ (fun d2 u => insertReaction_sync_state now mid re.name u d2) re.users d

theorem upsert_user_sync_state (u : UserRow) (db : DB) :
    (upsert_user u db).sync_state = db.sync_state := by
  unfold upsert_user; split <;> rfl

theorem ensure_user_cached_sync_state (client : ClientModel) (uid : String) (db : DB) :
    (ensure_user_cached client uid db).sync_state = db.sync_state := by
  unfold ensure_user_cached
  cases get_user uid db with
  | some u => rfl
  | none =>
    cases client.userInfo uid with
    | none => rfl
    | some u => exact upsert_user_sync_state u db

theorem upsert_message_sync_state (now : ℚ) (m : Msg) (db : DB) :
    (upsert_message now m db).2.sync_state = db.sync_state := by
  unfold upsert_message; split <;> rfl

theorem syncRepliesList_sync_state (client : ClientModel) (fail : String → String → Bool)
    (now : ℚ) (ch : String) :
    ∀ (rs : List SlackMsg) (db : DB),
      (outDB (syncRepliesList client fail now ch rs db)).sync_state = db.sync_state := by
  intro rs
  induction rs with
  | nil => intro db; rfl
  | cons r rest ih =>
    intro db
    rw [syncRepliesList]
    unfold upsert_message_exc
    by_cases hf : fail (Msg.from_slack ch r).channel_id (Msg.from_slack ch r).ts = true
    · simp [hf, outDB]
    · simp only [hf, if_neg, Bool.false_eq_true, if_false]
      rw [ih]
      cases huser : (Msg.from_slack ch r).user_id with
      | some uid =>
        simp only []
        rw [ensure_user_cached_sync_state]
        split
        · rw [upsert_reactions_sync_state, upsert_message_sync_state]
        · rw [upsert_message_sync_state]
      | none =>
        simp only []
        split
        · rw [upsert_reactions_sync_state, upsert_message_sync_state]
        · rw [upsert_message_sync_state]

theorem persistMessageStep_ok_sync_state (fail : String → String → Bool) (now : ℚ) (m : Msg)
    (rs : List SlackReaction) (db : DB) (mid : Nat) (db2 : DB)
    (h : persistMessageStep fail now m rs db = Except.ok (mid, db2)) :
    db2.sync_state = db.sync_state := by
  unfold persistMessageStep upsert_message_exc at h
  by_cases hf : fail m.channel_id m.ts = true
  · simp [hf] at h
  · simp only [hf, Bool.false_eq_true, if_false] at h
    have h2 := (Except.ok.inj h)
    have hdb2 : db2 = if rs ≠ [] then upsert_reactions now (upsert_message now m db).1 rs
        (upsert_message now m db).2 else (upsert_message now m db).2 := by
      have := congrArg Prod.snd h2
      simpa using this.symm
    rw [hdb2]
    split
    · rw [upsert_reactions_sync_state, upsert_message_sync_state]
    · rw [upsert_message_sync_state]

theorem processMessage_sync_state (client : ClientModel) (fail : String → String → Bool)
    (now : ℚ) (ch : String) (oldest : Option String) (x : SlackMsg) (db : DB) :
    (outDB (processMessage client fail now ch oldest x db)).sync_state = db.sync_state := by
  unfold processMessage
  by_cases hs : skipOld oldest (Msg.from_slack ch x).ts = true
  · simp [hs, outDB]
  · simp only [hs, Bool.false_eq_true, if_false]
    cases hps : persistMessageStep fail now (Msg.from_slack ch x) x.reactions db with
    | error dbe =>
      unfold persistMessageStep upsert_message_exc at hps
      by_cases hf : fail (Msg.from_slack ch x).channel_id (Msg.from_slack ch x).ts = true
      · simp only [hf, if_true] at hps
        have : dbe = db := (Except.error.inj hps).symm
        simp [outDB, this]
      · simp [hf] at hps
    | ok p =>
      obtain ⟨mid, db3⟩ := p
      have hsync3 : db3.sync_state = db.sync_state :=
        persistMessageStep_ok_sync_state fail now (Msg.from_slack ch x) x.reactions db mid db3 hps
      by_cases hrc : (Msg.from_slack ch x).reply_count > 0
      · simp only [if_pos hrc]
        cases hthr : sync_thread_replies client fail now ch (Msg.from_slack ch x).ts db3 with
        | error db4 =>
          have := syncRepliesList_sync_state client fail now ch
            (get_thread_replies (client.threadRepliesRaw ch (Msg.from_slack ch x).ts)) db3
          unfold sync_thread_replies at hthr
          rw [hthr] at this
          simp only [outDB] at this
          simp [outDB, this, hsync3]
        | ok db4 =>
          have := syncRepliesList_sync_state client fail now ch
            (get_thread_replies (client.threadRepliesRaw ch (Msg.from_slack ch x).ts)) db3
          unfold sync_thread_replies at hthr
          rw [hthr] at this
          simp only [outDB] at this
          cases huser : (Msg.from_slack ch x).user_id with
          | some uid =>
            simp only [outDB]
            rw [ensure_user_cached_sync_state, this, hsync3]
          | none =>
            simp only [outDB]
            rw [this, hsync3]
      · simp only [if_neg hrc]
        cases huser : (Msg.from_slack ch x).user_id with
        | some uid =>
          simp only [outDB]
          rw [ensure_user_cached_sync_state, hsync3]
        | none =>
          simp only [outDB]
          rw [hsync3]

theorem processMessages_sync_state (client : ClientModel) (fail : String → String → Bool)
    (now : ℚ) (ch : String) (oldest : Option String) :
    ∀ (xs : List SlackMsg) (db : DB),
      (outDB (processMessages client fail now ch oldest xs db)).sync_state = db.sync_state := by
  intro xs
  induction xs with
  | nil => intro db; rfl
  | cons x rest ih =>
    intro db
    rw [processMessages]
    cases hpm : processMessage client fail now ch oldest x db with
    | error db2 =>
      have := processMessage_sync_state client fail now ch oldest x db
      rw [hpm] at this
      simpa [outDB] using this
    | ok db2 =>
      have := processMessage_sync_state client fail now ch oldest x db
      rw [hpm] at this
      simp only [outDB] at this
      rw [ih db2, this]

/-- C2 counterexample: channel `"C"` has a two-message page (newest ts
`"102"`), persisting the message at ts `"101"` raises, and the run ends in
an error with the cursor not written at all — the claim says the cursor
update to `"102"` should still have happened. -/
theorem c2_counterexample :
    client2.history "C" none = [msg102, msg101] ∧
    sync_channel_messages client2 fail2 3 "C" db0 = Except.error db0 ∧
    get_sync_state "C" db0 = none :=
  ⟨by decide, rfl, by decide⟩

/-- C2 as amended: a per-message persistence error during the page's
processing aborts the channel's sync before the cursor update — whenever
the run raises, the stored sync state is exactly what it was before the
cycle. -/
theorem c2_cursor_unchanged_on_error (client : ClientModel) (fail : String → String → Bool)
    (now : ℚ) (ch : String) (db db2 : DB)
    (herr : sync_channel_messages client fail now ch db = Except.error db2) :
    db2.sync_state = db.sync_state := by
  unfold sync_channel_messages at herr
  simp only [] at herr
  cases hh : client.history ch
      (match get_sync_state ch db with | some s => s.last_ts | none => none) with
  | nil =>
    rw [hh] at herr
    simp at herr
  | cons first rest =>
    rw [hh] at herr
    simp only [] at herr
    cases hpm : processMessages client fail now ch
        (match get_sync_state ch db with | some s => s.last_ts | none => none)
        ((first :: rest).reverse) db with
    | error db3 =>
      rw [hpm] at herr
      have hd : db3 = db2 := Except.error.inj herr
      have := processMessages_sync_state client fail now ch
        (match get_sync_state ch db with | some s => s.last_ts | none => none)
        ((first :: rest).reverse) db
      rw [hpm] at this
      simp only [outDB] at this
      rw [← hd]
      exact this
    | ok db3 =>
      rw [hpm] at herr
      simp at herr

/-- Witness for C2 (amended): at the concrete failing run of
`c2_counterexample`, the sync state is untouched. -/
theorem c2_witness :
    sync_channel_messages client2 fail2 3 "C" db0 = Except.error db0 ∧
    db0.sync_state = db0.sync_state :=
  ⟨rfl, c2_cursor_unchanged_on_error client2 fail2 3 "C" db0 db0 rfl⟩

theorem listLe_refl : ∀ l : List Char, listLe l l = true := by
  intro l
  induction l with
  | nil => rfl
  | cons a as ih => simp [listLe, ih]

theorem strLe_refl (s : String) : strLe s s = true := listLe_refl s.data

theorem get_sync_state_congr (ch : String) (d1 d2 : DB) (h : d1.sync_state = d2.sync_state) :
    get_sync_state ch d1 = get_sync_state ch d2 := by
  unfold get_sync_state
  rw [h]

theorem find?_map_update (ch : String) (lts : Option String) (now : ℚ) :
    ∀ l : List SyncRow, l.any (fun r => r.channel_id = ch) = true →
      ∃ row, (l.map (fun r => if r.channel_id = ch then
          { r with last_ts := lts, last_sync_at := now } else r)).find?
            (fun r => r.channel_id = ch) = some row ∧ row.last_ts = lts := by
  intro l
  induction l with
  | nil => intro h; simp at h
  | cons a t ih =>
    intro h
    by_cases ha : a.channel_id = ch
    · refine ⟨{ a with last_ts := lts, last_sync_at := now }, ?_, rfl⟩
      simp [List.find?, ha]
    · have ht : t.any (fun r => r.channel_id = ch) = true := by
        simp only [List.any_cons] at h
        rcases Bool.or_eq_true_iff.mp h with h1 | h2
        · exact absurd (of_decide_eq_true h1) ha
        · exact h2
      obtain ⟨row, hrow, hlast⟩ := ih ht
      refine ⟨row, ?_, hlast⟩
      simpa [List.find?, ha] using hrow

theorem find?_append_fresh (ch : String) (new : SyncRow) (hnew : new.channel_id = ch) :
    ∀ l : List SyncRow, l.any (fun r => r.channel_id = ch) = false →
      (l ++ [new]).find? (fun r => r.channel_id = ch) = some new := by
  intro l
  induction l with
  | nil => intro _; simp [List.find?, hnew]
  | cons a t ih =>
    intro h
    simp only [List.any_cons, Bool.or_eq_false_iff] at h
    have ha : ¬ a.channel_id = ch := by
      intro hc
      simp [hc] at h
    simp only [List.cons_append, List.find?]
    rw [h.1]
    exact ih h.2

theorem get_sync_state_after_upsert (now : ℚ) (ch : String) (lts : Option String) (db : DB) :
    ∃ row, get_sync_state ch (upsert_sync_state now ch lts db) = some row ∧
      row.last_ts = lts := by
  unfold upsert_sync_state get_sync_state
  by_cases hany : db.sync_state.any (fun r => r.channel_id = ch) = true
  · rw [if_pos hany]
    exact find?_map_update ch lts now db.sync_state hany
  · rw [if_neg hany]
    refine ⟨{ channel_id := ch, last_ts := lts, last_sync_at := now }, ?_, rfl⟩
    exact find?_append_fresh ch _ rfl db.sync_state (Bool.not_eq_true _ ▸ hany)

/-- C3: the stored sync cursor is monotonically non-decreasing across
cycles: if channel `ch`'s cursor is `o` and every message a history fetch
with lower bound `o` returns has ts ≥ `o`, then after a sync run (whether
it returned or raised) the cursor is some `n` with `o ≤ n`. -/
theorem c3_cursor_monotone (client : ClientModel) (fail : String → String → Bool) (now : ℚ)
    (ch : String) (db : DB) (o : String)
    (hclient : ∀ m ∈ client.history ch (some o), strLe o m.ts = true)
    (hcur : ∃ row, get_sync_state ch db = some row ∧ row.last_ts = some o) :
    ∃ row2, get_sync_state ch (outDB (sync_channel_messages client fail now ch db)) = some row2 ∧
      ∃ n, row2.last_ts = some n ∧ strLe o n = true := by
  obtain ⟨row, hrow, hlast⟩ := hcur
  have holdest : (match get_sync_state ch db with | some s => s.last_ts | none => none) =
      some o := by
    rw [hrow]
    exact hlast
  unfold sync_channel_messages
  simp only []
  rw [holdest]
  cases hh : client.history ch (some o) with
  | nil =>
    simp only [outDB]
    exact ⟨row, hrow, o, hlast, strLe_refl o⟩
  | cons first rest =>
    simp only []
    cases hpm : processMessages client fail now ch (some o) ((first :: rest).reverse) db with
    | error dbp =>
      simp only [outDB]
      have hsync := processMessages_sync_state client fail now ch (some o)
        ((first :: rest).reverse) db
      rw [hpm] at hsync
      simp only [outDB] at hsync
      refine ⟨row, ?_, o, hlast, strLe_refl o⟩
      rw [get_sync_state_congr ch dbp db hsync, hrow]
    | ok dbp =>
      have hsync := processMessages_sync_state client fail now ch (some o)
        ((first :: rest).reverse) db
      rw [hpm] at hsync
      simp only [outDB] at hsync
      by_cases hne : first.ts ≠ ""
      · simp only [outDB, if_pos hne]
        obtain ⟨row2, hrow2, hlast2⟩ := get_sync_state_after_upsert now ch (some first.ts) dbp
        refine ⟨row2, hrow2, first.ts, hlast2, ?_⟩
        exact hclient first (hh ▸ List.mem_cons_self first rest)
      · simp only [outDB, if_neg hne]
        refine ⟨row, ?_, o, hlast, strLe_refl o⟩
        rw [get_sync_state_congr ch dbp db hsync, hrow]

/-- Witness for C3: channel `"C"` with cursor `"100"` and an empty fetch —
the cursor stays at `"100" ≥ "100"`. -/
theorem c3_witness :
    (∀ m ∈ clientEmpty.history "C" (some "100"), strLe "100" m.ts = true) ∧
    (∃ row, get_sync_state "C" db3 = some row ∧ row.last_ts = some "100") ∧
    ∃ row2, get_sync_state "C"
        (outDB (sync_channel_messages clientEmpty failNone 5 "C" db3)) = some row2 ∧
      ∃ n, row2.last_ts = some n ∧ strLe "100" n = true := by
  refine ⟨by decide, ⟨⟨"C", some "100", 5⟩, by decide, rfl⟩, ?_⟩
  exact c3_cursor_monotone clientEmpty failNone 5 "C" db3 "100" (by decide)
    ⟨⟨"C", some "100", 5⟩, by decide, rfl⟩

theorem insertReaction_triples (now : ℚ) (mid : Nat) (n u : String) (db : DB)
    (t : Nat × String × String) :
    t ∈ reactionTriples (insertReaction now mid n u db) mid ↔
      (t ∈ reactionTriples db mid ∨ t = (mid, n, u)) := by
  unfold insertReaction
  by_cases hex : db.reactions.any
      (fun r => r.message_id = mid ∧ r.name = n ∧ r.user_id = u) = true
  · rw [if_pos hex]
    constructor
    · exact fun h => Or.inl h
    · rintro (h | rfl)
      · exact h
      · obtain ⟨r, hrmem, hrp⟩ := List.any_eq_true.mp hex
        have hrp2 : r.message_id = mid ∧ r.name = n ∧ r.user_id = u := by simpa using hrp
        simp only [reactionTriples, List.mem_map]
        refine ⟨r, ?_, ?_⟩
        · rw [List.mem_filter]
          exact ⟨hrmem, by simp [hrp2.1]⟩
        · simp [hrp2.1, hrp2.2.1, hrp2.2.2]
  · rw [if_neg hex]
    simp only [reactionTriples, List.filter_append, List.map_append, List.mem_append]
    constructor
    · rintro (h | h)
      · exact Or.inl h
      · simp at h
        exact Or.inr h
    · rintro (h | rfl)
      · exact Or.inl h
      · right
        simp

theorem foldUsers_triples (now : ℚ) (mid : Nat) (n : String) (t : Nat × String × String) :
    ∀ (users : List String) (acc : DB),
      t ∈ reactionTriples (users.foldl (fun a u => insertReaction now mid n u a) acc) mid ↔
        (t ∈ reactionTriples acc mid ∨ t ∈ users.map (fun u => (mid, n, u))) := by
  intro users
  induction users with
  | nil => intro acc; simp
  | cons u us ih =>
    intro acc
    rw [List.foldl_cons, ih]
    rw [insertReaction_triples]
    simp only [List.map_cons, List.mem_cons]
    tauto

theorem foldReactions_triples (now : ℚ) (mid : Nat) (t : Nat × String × String) :
    ∀ (rs : List SlackReaction) (acc : DB),
      t ∈ reactionTriples
          (rs.foldl (fun a re => re.users.foldl (fun a2 u => insertReaction now mid re.name u a2) a) acc)
          mid ↔
        (t ∈ reactionTriples acc mid ∨ t ∈ snapshotTriples mid rs) := by
  intro rs
  induction rs with
  | nil => intro acc; simp [snapshotTriples]
  | cons re rest ih =>
    intro acc
    rw [List.foldl_cons, ih, foldUsers_triples]
    simp only [snapshotTriples, List.foldr_cons, List.mem_append]
    constructor
    · rintro ((h | h) | h)
      · exact Or.inl h
      · exact Or.inr (Or.inl h)
      · right; right
        simpa [snapshotTriples] using h
    · rintro (h | h | h)
      · exact Or.inl (Or.inl h)
      · exact Or.inl (Or.inr h)
      · right
        simpa [snapshotTriples] using h

theorem upsert_reactions_triples (now : ℚ) (mid : Nat) (rs : List SlackReaction) (db : DB)
    (t : Nat × String × String) :
    t ∈ reactionTriples (upsert_reactions now mid rs db) mid ↔ t ∈ snapshotTriples mid rs := by
  unfold upsert_reactions
  rw [foldReactions_triples]
  have h0 : reactionTriples
      { db with reactions := db.reactions.filter (fun r => r.message_id ≠ mid) } mid = [] := by
    simp only [reactionTriples]
    have : (db.reactions.filter (fun r => r.message_id ≠ mid)).filter
        (fun r => r.message_id = mid) = [] := by
      rw [List.filter_filter]
      refine List.filter_eq_nil_iff.mpr ?_
      intro a _
      simp
    rw [this]
    rfl
  rw [h0]
  simp

/-- C1 (amended): for every message whose fetched snapshot is non-empty,
persisting the message (store step of `_sync_channel_messages`, lines
133–137) leaves exactly the `(message_id, emoji_name, user_id)` triples of
that snapshot for the returned message id — prior rows are fully replaced.
When the snapshot is empty, the reaction store is not touched (see the
counterexample). -/
theorem c1_reaction_snapshot (fail : String → String → Bool) (now : ℚ) (m : Msg)
    (rs : List SlackReaction) (db : DB)
    (hne : rs ≠ []) (hok : fail m.channel_id m.ts = false) :
    ∃ mid db2, persistMessageStep fail now m rs db = Except.ok (mid, db2) ∧
      ∀ t, t ∈ reactionTriples db2 mid ↔ t ∈ snapshotTriples mid rs := by
  unfold persistMessageStep upsert_message_exc
  simp only [hok, Bool.false_eq_true, if_false]
  refine ⟨(upsert_message now m db).1,
    upsert_reactions now (upsert_message now m db).1 rs (upsert_message now m db).2, ?_, ?_⟩
  · simp [hne]
  · intro t
    exact upsert_reactions_triples now (upsert_message now m db).1 rs
      (upsert_message now m db).2 t

/-- C1 counterexample: `msgC` is re-fetched with an EMPTY reaction
snapshot, the sync run succeeds, yet the stored reaction rows for its
message id still hold the stale `(0, "+1", "U9")` triple from the earlier
snapshot — they do not equal the (empty) most recently fetched snapshot. -/
theorem c1_counterexample :
    msgC.reactions = [] ∧
    reactAfter (sync_channel_messages clientC failNone 7 "C" dbC) 0 = some [(0, "+1", "U9")] :=
  ⟨rfl, by decide⟩

/-- Witness for C1 (amended) at Scenario B's snapshot: persisting `msgC`
with the non-empty snapshot `[(+1, [U9])]` leaves exactly that triple. -/
theorem c1_witness :
    (([⟨"+1", ["U9"]⟩] : List SlackReaction) ≠ []) ∧
    (failNone (Msg.from_slack "C" msgC).channel_id (Msg.from_slack "C" msgC).ts = false) ∧
    ∃ mid db2, persistMessageStep failNone 7 (Msg.from_slack "C" msgC)
        [⟨"+1", ["U9"]⟩] dbC = Except.ok (mid, db2) ∧
      ∀ t, t ∈ reactionTriples db2 mid ↔ t ∈ snapshotTriples mid [⟨"+1", ["U9"]⟩] :=
  ⟨by decide, by decide,
    c1_reaction_snapshot failNone 7 (Msg.from_slack "C" msgC) [⟨"+1", ["U9"]⟩] dbC
      (by decide) (by decide)⟩

theorem listLe_total : ∀ (a b : List Char), listLe a b = false → listLe b a = true := by
  intro a
  induction a with
  | nil => intro b h; simp [listLe] at h
  | cons x xs ih =>
    intro b h
    cases b with
    | nil => rfl
    | cons y ys =>
      simp only [listLe] at h ⊢
      by_cases h1 : x.toNat < y.toNat
      · simp [h1] at h
      · by_cases h2 : y.toNat < x.toNat
        · simp [h2]
        · rw [if_neg h1, if_neg h2] at h
          rw [if_neg h2, if_neg h1]
          exact ih ys h

theorem listLe_trans : ∀ (a b c : List Char),
    listLe a b = true → listLe b c = true → listLe a c = true := by
  intro a
  induction a with
  | nil => intro b c _ _; rfl
  | cons x xs ih =>
    intro b c hab hbc
    cases b with
    | nil => simp [listLe] at hab
    | cons y ys =>
      cases c with
      | nil => simp [listLe] at hbc
      | cons z zs =>
        simp only [listLe] at hab hbc ⊢
        by_cases hxz : x.toNat < z.toNat
        · rw [if_pos hxz]
        · rw [if_neg hxz]
          by_cases hzx : z.toNat < x.toNat
          · rw [if_pos hzx]
            exfalso
            by_cases hxy : x.toNat < y.toNat
            · by_cases hyz : y.toNat < z.toNat
              · omega
              · by_cases hzy : z.toNat < y.toNat
                · rw [if_neg hyz, if_pos hzy] at hbc
                  exact absurd hbc (by simp)
                · omega
            · by_cases hyx : y.toNat < x.toNat
              · rw [if_neg hxy, if_pos hyx] at hab
                exact absurd hab (by simp)
              · by_cases hyz : y.toNat < z.toNat
                · omega
                · by_cases hzy : z.toNat < y.toNat
                  · rw [if_neg hyz, if_pos hzy] at hbc
                    exact absurd hbc (by simp)
                  · omega
          · rw [if_neg hzx]
            by_cases hxy : x.toNat < y.toNat
            · by_cases hyz : y.toNat < z.toNat
              · omega
              · by_cases hzy : z.toNat < y.toNat
                · rw [if_neg hyz, if_pos hzy] at hbc
                  exact absurd hbc (by simp)
                · omega
            · by_cases hyx : y.toNat < x.toNat
              · rw [if_neg hxy, if_pos hyx] at hab
                exact absurd hab (by simp)
              · by_cases hyz : y.toNat < z.toNat
                · omega
                · by_cases hzy : z.toNat < y.toNat
                  · omega
                  · rw [if_neg hxy, if_neg hyx] at hab
                    rw [if_neg hyz, if_neg hzy] at hbc
                    exact ih ys zs hab hbc

theorem strLe_trans (a b c : String) (h1 : strLe a b = true) (h2 : strLe b c = true) :
    strLe a c = true := listLe_trans a.data b.data c.data h1 h2

theorem strLe_total (a b : String) (h : strLe a b = false) : strLe b a = true :=
  listLe_total a.data b.data h

theorem insTsDesc_mem (m : SlackMsg) :
    ∀ (l : List SlackMsg) (a : SlackMsg), a ∈ insTsDesc m l ↔ a = m ∨ a ∈ l := by
  intro l
  induction l with
  | nil => intro a; simp [insTsDesc]
  | cons y ys ih =>
    intro a
    unfold insTsDesc
    split
    · simp
    · rw [List.mem_cons, ih a]
      simp only [List.mem_cons]
      tauto

theorem insTsDesc_pairwise (m : SlackMsg) :
    ∀ l : List SlackMsg, List.Pairwise (fun a b => strLe b.ts a.ts = true) l →
      List.Pairwise (fun a b => strLe b.ts a.ts = true) (insTsDesc m l) := by
  intro l
  induction l with
  | nil => intro _; simp [insTsDesc]
  | cons y ys ih =>
    intro hp
    unfold insTsDesc
    split
    · rename_i hlt
      refine List.Pairwise.cons ?_ hp
      intro b hb
      have hym : strLe y.ts m.ts = true := by
        have h2 : (!strLe m.ts y.ts) = true := hlt
        exact strLe_total m.ts y.ts (by simpa using h2)
      rcases List.mem_cons.mp hb with rfl | hbys
      · exact hym
      · have hby : strLe b.ts y.ts = true := (List.pairwise_cons.mp hp).1 b hbys
        exact strLe_trans b.ts y.ts m.ts hby hym
    · rename_i hnlt
      have hmy : strLe m.ts y.ts = true := by
        unfold strLt at hnlt
        have : (!strLe m.ts y.ts) = false := by
          simpa using hnlt
        simpa using this
      obtain ⟨hy, hys⟩ := List.pairwise_cons.mp hp
      refine List.pairwise_cons.mpr ⟨?_, ih hys⟩
      intro b hb
      rcases (insTsDesc_mem m ys b).mp hb with rfl | hbys
      · exact hmy
      · exact hy b hbys

theorem sortTsDesc_aux_pairwise :
    ∀ (l : List SlackMsg) (acc : List SlackMsg),
      List.Pairwise (fun a b => strLe b.ts a.ts = true) acc →
      List.Pairwise (fun a b => strLe b.ts a.ts = true)
        (l.foldl (fun acc2 m => insTsDesc m acc2) acc) := by
  intro l
  induction l with
  | nil => intro acc h; exact h
  | cons x xs ih =>
    intro acc h
    rw [List.foldl_cons]
    exact ih (insTsDesc x acc) (insTsDesc_pairwise x acc h)

theorem sortTsDesc_pairwise (l : List SlackMsg) :
    List.Pairwise (fun a b => strLe b.ts a.ts = true) (sortTsDesc l) :=
  sortTsDesc_aux_pairwise l [] (List.Pairwise.nil)

theorem sortTsDesc_aux_mem :
    ∀ (l : List SlackMsg) (acc : List SlackMsg) (a : SlackMsg),
      a ∈ l.foldl (fun acc2 m => insTsDesc m acc2) acc ↔ a ∈ acc ∨ a ∈ l := by
  intro l
  induction l with
  | nil => intro acc a; simp
  | cons x xs ih =>
    intro acc a
    rw [List.foldl_cons, ih (insTsDesc x acc) a, insTsDesc_mem x acc a]
    simp only [List.mem_cons]
    tauto

theorem sortTsDesc_mem (l : List SlackMsg) (a : SlackMsg) :
    a ∈ sortTsDesc l ↔ a ∈ l := by
  unfold sortTsDesc
  rw [sortTsDesc_aux_mem l [] a]
  simp

theorem sortTsDesc_head_max (l : List SlackMsg) (first : SlackMsg) (rest : List SlackMsg)
    (h : sortTsDesc l = first :: rest) :
    ∀ x ∈ l, strLe x.ts first.ts = true := by
  intro x hx
  have hx2 : x ∈ sortTsDesc l := (sortTsDesc_mem l x).mpr hx
  rw [h] at hx2
  rcases List.mem_cons.mp hx2 with rfl | hx3
  · exact strLe_refl x.ts
  · have hp := sortTsDesc_pairwise l
    rw [h] at hp
    exact (List.pairwise_cons.mp hp).1 x hx3

theorem messageKeys_congr (d1 d2 : DB) (h : d1.messages = d2.messages) :
    d1.messageKeys = d2.messageKeys := by
  simp [DB.messageKeys, h]

theorem upsert_sync_state_messages (now : ℚ) (ch : String) (lts : Option String) (db : DB) :
    (upsert_sync_state now ch lts db).messages = db.messages := by
  unfold upsert_sync_state; split <;> rfl

theorem upsert_message_nodup (now : ℚ) (m : Msg) (db : DB) (h : db.messageKeys.Nodup) :
    (upsert_message now m db).2.messageKeys.Nodup := by
  cases hfe : db.messages.find? (fun r => r.channel_id = m.channel_id ∧ r.ts = m.ts) with
  | some r0 =>
    have hmsgs : (upsert_message now m db).2.messages =
        db.messages.map (fun r2 =>
          if r2.channel_id = m.channel_id ∧ r2.ts = m.ts then
            { r2 with
                user_id := m.user_id
                text := m.text
                thread_ts := m.thread_ts
                reply_count := m.reply_count
                is_edited := m.is_edited
                updated_at := some now
                metadata := m.metadata }
          else r2) := by
      simp only [upsert_message, hfe]
    have hkeys : (upsert_message now m db).2.messageKeys = db.messageKeys := by
      simp only [DB.messageKeys, hmsgs, List.map_map]
      apply List.map_congr_left
      intro r _
      by_cases hc : r.channel_id = m.channel_id ∧ r.ts = m.ts <;>
        simp [MessageRow.key, Function.comp, hc]
    rw [hkeys]
    exact h
  | none =>
    have hmsgs : (upsert_message now m db).2.messages =
        db.messages ++
          [{ id := db.nextMessageId
             channel_id := m.channel_id
             ts := m.ts
             user_id := m.user_id
             text := m.text
             thread_ts := m.thread_ts
             reply_count := m.reply_count
             is_edited := m.is_edited
             message_type := m.message_type
             created_at := m.created_at
             updated_at := some now
             metadata := m.metadata }] := by
      simp only [upsert_message, hfe]
    have hfresh : (m.channel_id, m.ts) ∉ db.messageKeys := by
      intro hmem
      obtain ⟨r, hr, hkey⟩ := List.mem_map.mp hmem
      have hne := List.find?_eq_none.mp hfe r hr
      simp only [MessageRow.key, Prod.mk.injEq] at hkey
      simp [hkey.1, hkey.2] at hne
    simp only [DB.messageKeys, hmsgs, List.map_append, List.map_cons, List.map_nil]
    rw [List.nodup_append]
    refine ⟨h, List.nodup_singleton _, ?_⟩
    intro a ha hb
    simp only [List.mem_singleton] at hb
    subst hb
    exact hfresh ha

theorem syncRepliesList_nodup (client : ClientModel) (fail : String → String → Bool)
    (now : ℚ) (ch : String) :
    ∀ (rs : List SlackMsg) (db : DB), db.messageKeys.Nodup →
      (outDB (syncRepliesList client fail now ch rs db)).messageKeys.Nodup := by
  intro rs
  induction rs with
  | nil => intro db h; exact h
  | cons r rest ih =>
    intro db h
    rw [syncRepliesList]
    unfold upsert_message_exc
    by_cases hf : fail (Msg.from_slack ch r).channel_id (Msg.from_slack ch r).ts = true
    · simpa [hf, outDB] using h
    · simp only [hf, Bool.false_eq_true, if_false]
      apply ih
      have h2 : (upsert_message now (Msg.from_slack ch r) db).2.messageKeys.Nodup :=
        upsert_message_nodup now (Msg.from_slack ch r) db h
      have hbase : (if r.reactions ≠ [] then
          upsert_reactions now (upsert_message now (Msg.from_slack ch r) db).1
            r.reactions (upsert_message now (Msg.from_slack ch r) db).2
         else (upsert_message now (Msg.from_slack ch r) db).2).messages =
          (upsert_message now (Msg.from_slack ch r) db).2.messages := by
        split
        · exact upsert_reactions_messages _ _ _ _
        · rfl
      cases huser : (Msg.from_slack ch r).user_id with
      | some uid =>
        simp only []
        rw [messageKeys_congr _ _ ((ensure_user_cached_messages client uid _).trans hbase)]
        exact h2
      | none =>
        simp only []
        rw [messageKeys_congr _ _ hbase]
        exact h2

theorem persistMessageStep_ok_keys (fail : String → String → Bool) (now : ℚ) (m : Msg)
    (rs : List SlackReaction) (db : DB) (mid : Nat) (db2 : DB)
    (hps : persistMessageStep fail now m rs db = Except.ok (mid, db2)) :
    db2.messages = (upsert_message now m db).2.messages := by
  unfold persistMessageStep upsert_message_exc at hps
  by_cases hf : fail m.channel_id m.ts = true
  · simp [hf] at hps
  · simp only [hf, Bool.false_eq_true, if_false] at hps
    have h2 := Except.ok.inj hps
    have hdb2 : db2 = if rs ≠ [] then upsert_reactions now (upsert_message now m db).1 rs
        (upsert_message now m db).2 else (upsert_message now m db).2 := by
      have := congrArg Prod.snd h2
      simpa using this.symm
    rw [hdb2]
    split
    · exact upsert_reactions_messages _ _ _ _
    · rfl

theorem processMessage_nodup (client : ClientModel) (fail : String → String → Bool)
    (now : ℚ) (ch : String) (oldest : Option String) (x : SlackMsg) (db : DB)
    (h : db.messageKeys.Nodup) :
    (outDB (processMessage client fail now ch oldest x db)).messageKeys.Nodup := by
  unfold processMessage
  by_cases hs : skipOld oldest (Msg.from_slack ch x).ts = true
  · simpa [hs, outDB] using h
  · simp only [hs, Bool.false_eq_true, if_false]
    cases hps : persistMessageStep fail now (Msg.from_slack ch x) x.reactions db with
    | error dbe =>
      unfold persistMessageStep upsert_message_exc at hps
      by_cases hf : fail (Msg.from_slack ch x).channel_id (Msg.from_slack ch x).ts = true
      · simp only [hf, if_true] at hps
        have hd : dbe = db := (Except.error.inj hps).symm
        simpa [outDB, hd] using h
      · simp [hf] at hps
    | ok p =>
      obtain ⟨mid, db3⟩ := p
      have h3 : db3.messageKeys.Nodup := by
        rw [messageKeys_congr _ _
          (persistMessageStep_ok_keys fail now (Msg.from_slack ch x) x.reactions db mid db3 hps)]
        exact upsert_message_nodup now (Msg.from_slack ch x) db h
      by_cases hrc : (Msg.from_slack ch x).reply_count > 0
      · simp only [if_pos hrc]
        cases hthr : sync_thread_replies client fail now ch (Msg.from_slack ch x).ts db3 with
        | error db4 =>
          have hn := syncRepliesList_nodup client fail now ch
            (get_thread_replies (client.threadRepliesRaw ch (Msg.from_slack ch x).ts)) db3 h3
          unfold sync_thread_replies at hthr
          rw [hthr] at hn
          simpa [outDB] using hn
        | ok db4 =>
          have hn := syncRepliesList_nodup client fail now ch
            (get_thread_replies (client.threadRepliesRaw ch (Msg.from_slack ch x).ts)) db3 h3
          unfold sync_thread_replies at hthr
          rw [hthr] at hn
          simp only [outDB] at hn
          cases huser : (Msg.from_slack ch x).user_id with
          | some uid =>
            simp only [outDB]
            rw [messageKeys_congr _ _ (ensure_user_cached_messages client uid db4)]
            exact hn
          | none =>
            simpa [outDB] using hn
      · simp only [if_neg hrc]
        cases huser : (Msg.from_slack ch x).user_id with
        | some uid =>
          simp only [outDB]
          rw [messageKeys_congr _ _ (ensure_user_cached_messages client uid db3)]
          exact h3
        | none =>
          simpa [outDB] using h3

theorem processMessages_nodup (client : ClientModel) (fail : String → String → Bool)
    (now : ℚ) (ch : String) (oldest : Option String) :
    ∀ (xs : List SlackMsg) (db : DB), db.messageKeys.Nodup →
      (outDB (processMessages client fail now ch oldest xs db)).messageKeys.Nodup := by
  intro xs
  induction xs with
  | nil => intro db h; exact h
  | cons x rest ih =>
    intro db h
    rw [processMessages]
    cases hpm : processMessage client fail now ch oldest x db with
    | error db2 =>
      have := processMessage_nodup client fail now ch oldest x db h
      rw [hpm] at this
      simpa [outDB] using this
    | ok db2 =>
      have h2 := processMessage_nodup client fail now ch oldest x db h
      rw [hpm] at h2
      simp only [outDB] at h2
      exact ih db2 h2


theorem histOf_eq (R : List SlackMsg) (ch : String) (oldest : Option String) :
    histOf R ch oldest = (sortTsDesc (R.filter (predOldest oldest))).take 100 := rfl

/-- C4: syncing is idempotent — against a fixed remote set `R` (whose
timestamps are non-empty strings, as Slack issues them), a successful sync
run followed by a second run leaves the store exactly as after the first
run (in particular no new message rows), and the `(channel_id, ts)` keys
stay duplicate-free. -/
theorem c4_idempotent (R : List SlackMsg) (client : ClientModel)
    (fail : String → String → Bool) (now now2 : ℚ) (ch : String) (db db1 : DB)
    (hhist : client.history = histOf R)
    (hts : ∀ m ∈ R, m.ts ≠ "")
    (h1 : sync_channel_messages client fail now ch db = Except.ok db1) :
    sync_channel_messages client fail now2 ch db1 = Except.ok db1 ∧
    (db.messageKeys.Nodup → db1.messageKeys.Nodup) := by
  unfold sync_channel_messages at h1
  simp only [] at h1
  set o0 : Option String :=
    (match get_sync_state ch db with | some s => s.last_ts | none => none) with ho
  clear_value o0
  cases hh : client.history ch o0 with
  | nil =>
    rw [hh] at h1
    simp only [] at h1
    have hdb : db = db1 := Except.ok.inj h1
    subst hdb
    constructor
    · unfold sync_channel_messages
      simp only []
      rw [← ho, hh]
    · exact id
  | cons first rest =>
    rw [hh] at h1
    simp only [] at h1
    cases hpm : processMessages client fail now ch o0 ((first :: rest).reverse) db with
    | error dbp =>
      rw [hpm] at h1
      simp at h1
    | ok dbp =>
      rw [hpm] at h1
      simp only [] at h1
      rw [hhist, histOf_eq] at hh
      obtain ⟨srest, hS⟩ : ∃ srest,
          sortTsDesc (R.filter (predOldest o0)) = first :: srest := by
        cases hS0 : sortTsDesc (R.filter (predOldest o0)) with
        | nil => rw [hS0] at hh; simp at hh
        | cons a as =>
          rw [hS0] at hh
          have htake : (a :: as).take 100 = a :: as.take 99 := rfl
          rw [htake] at hh
          injection hh with hh1 _
          exact ⟨as, by rw [hh1]⟩
      have hfirstmem : first ∈ R.filter (predOldest o0) :=
        (sortTsDesc_mem _ _).mp (hS ▸ List.mem_cons_self first srest)
      have hfirstR : first ∈ R := (List.mem_filter.mp hfirstmem).1
      have hfirstP : predOldest o0 first = true := (List.mem_filter.mp hfirstmem).2
      have hne : first.ts ≠ "" := hts first hfirstR
      rw [if_pos hne] at h1
      have hdb1 : db1 = upsert_sync_state now ch (some first.ts) dbp :=
        (Except.ok.inj h1).symm
      have hnodup : db.messageKeys.Nodup → db1.messageKeys.Nodup := by
        intro h
        have hp := processMessages_nodup client fail now ch o0 ((first :: rest).reverse) db h
        rw [hpm] at hp
        simp only [outDB] at hp
        rw [hdb1, messageKeys_congr _ _ (upsert_sync_state_messages now ch (some first.ts) dbp)]
        exact hp
      refine ⟨?_, hnodup⟩
      unfold sync_channel_messages
      simp only []
      obtain ⟨row2, hrow2, hlast2⟩ := get_sync_state_after_upsert now ch (some first.ts) dbp
      have holdest2 : (match get_sync_state ch db1 with
          | some s => s.last_ts | none => none) = some first.ts := by
        rw [hdb1, hrow2]
        exact hlast2
      rw [holdest2, hhist, histOf_eq]
      have hfilter : R.filter (predOldest (some first.ts)) = [] := by
        refine List.filter_eq_nil_iff.mpr ?_
        intro m hm
        unfold predOldest
        simp only []
        rw [if_pos hne]
        intro hcontra
        have hmle : strLe m.ts first.ts = false := by
          have hx : (!strLe m.ts first.ts) = true := hcontra
          simpa using hx
        have hp1 : predOldest o0 m = true := by
          unfold predOldest
          cases o0 with
          | none => rfl
          | some o =>
            simp only []
            by_cases hoe : o ≠ ""
            · rw [if_pos hoe]
              have hf2 : (if o ≠ "" then strLt o first.ts else true) = true := hfirstP
              rw [if_pos hoe] at hf2
              have hfle : strLe first.ts o = false := by
                have hx : (!strLe first.ts o) = true := hf2
                simpa using hx
              show (!strLe m.ts o) = true
              cases hcase : strLe m.ts o with
              | false => rfl
              | true =>
                exfalso
                have hfm : strLe first.ts m.ts = true := strLe_total m.ts first.ts hmle
                have hfo2 : strLe first.ts o = true :=
                  strLe_trans first.ts m.ts o hfm hcase
                rw [hfle] at hfo2
                exact Bool.noConfusion hfo2
            · rw [if_neg hoe]
        have hmem2 : m ∈ R.filter (predOldest o0) := List.mem_filter.mpr ⟨hm, hp1⟩
        have hmax := sortTsDesc_head_max _ first srest hS m hmem2
        rw [hmle] at hmax
        exact Bool.noConfusion hmax
      rw [hfilter]
      rfl

/-- Witness for C4: syncing the one-message remote `[msgW1]` from the empty
store once yields `db1W`; running the cycle again returns `db1W` unchanged,
with duplicate-free keys. -/
theorem c4_witness :
    sync_channel_messages (clientOfR [msgW1]) failNone 1 "C" db0 = Except.ok db1W ∧
    sync_channel_messages (clientOfR [msgW1]) failNone 2 "C" db1W = Except.ok db1W ∧
    (db0.messageKeys.Nodup → db1W.messageKeys.Nodup) := by
  have h1 : sync_channel_messages (clientOfR [msgW1]) failNone 1 "C" db0 = Except.ok db1W := rfl
  have h := c4_idempotent [msgW1] (clientOfR [msgW1]) failNone 1 2 "C" db0 db1W rfl
    (by decide) h1
  exact ⟨h1, h.1, h.2⟩

theorem insCreatedDesc_mem (m : MessageRow) :
    ∀ (l : List MessageRow) (a : MessageRow), a ∈ insCreatedDesc m l ↔ a = m ∨ a ∈ l := by
  intro l
  induction l with
  | nil => intro a; simp [insCreatedDesc]
  | cons y ys ih =>
    intro a
    unfold insCreatedDesc
    split
    · rw [List.mem_cons, ih a]
      simp only [List.mem_cons]
      tauto
    · simp only [List.mem_cons]

theorem sortCreatedDesc_aux_mem :
    ∀ (l : List MessageRow) (acc : List MessageRow) (a : MessageRow),
      a ∈ l.foldl (fun acc2 m => insCreatedDesc m acc2) acc ↔ a ∈ acc ∨ a ∈ l := by
  intro l
  induction l with
  | nil => intro acc a; simp
  | cons x xs ih =>
    intro acc a
    rw [List.foldl_cons, ih (insCreatedDesc x acc) a, insCreatedDesc_mem x acc a]
    simp only [List.mem_cons]
    tauto

theorem sortCreatedDesc_mem (l : List MessageRow) (a : MessageRow) :
    a ∈ sortCreatedDesc l ↔ a ∈ l := by
  unfold sortCreatedDesc
  rw [sortCreatedDesc_aux_mem l [] a]
  simp

theorem insCreatedDesc_length (m : MessageRow) :
    ∀ l : List MessageRow, (insCreatedDesc m l).length = l.length + 1 := by
  intro l
  induction l with
  | nil => rfl
  | cons y ys ih =>
    unfold insCreatedDesc
    split <;> simp [ih]

theorem sortCreatedDesc_aux_length :
    ∀ (l : List MessageRow) (acc : List MessageRow),
      (l.foldl (fun acc2 m => insCreatedDesc m acc2) acc).length = acc.length + l.length := by
  intro l
  induction l with
  | nil => intro acc; simp
  | cons x xs ih =>
    intro acc
    rw [List.foldl_cons, ih (insCreatedDesc x acc), insCreatedDesc_length]
    simp only [List.length_cons]
    omega

theorem sortCreatedDesc_length (l : List MessageRow) :
    (sortCreatedDesc l).length = l.length := by
  unfold sortCreatedDesc
  rw [sortCreatedDesc_aux_length l []]
  simp

theorem find?_channel_unique (c : ChannelRow) :
    ∀ l : List ChannelRow, (l.map ChannelRow.id).Nodup → c ∈ l →
      l.find? (fun r => r.id = c.id) = some c := by
  intro l
  induction l with
  | nil => intro _ h; simp at h
  | cons a t ih =>
    intro hnd hc
    have hnd2 : (∀ x ∈ t, ¬ x.id = a.id) ∧ (t.map ChannelRow.id).Nodup := by
      simpa using hnd
    by_cases ha : a.id = c.id
    · have hac : a = c := by
        rcases List.mem_cons.mp hc with rfl | hct
        · rfl
        · exact absurd ha.symm (hnd2.1 c hct)
      rw [hac]
      simp [List.find?]
    · have hct : c ∈ t := by
        rcases List.mem_cons.mp hc with rfl | hct
        · exact absurd rfl ha
        · exact hct
      have := ih hnd2.2 hct
      simpa [List.find?, ha] using this

/-- C7 counterexample: `dbM` holds a fresh message from another user in a
group-dm (`mpim`) channel, yet the status report contains no HIGH-priority
(direct-message tier) item at all — `get_dm_messages` filters on
`channel_type = 'im'` only. -/
theorem c7_counterexample :
    ((get_status_items "U1" 0 dbM).filter (fun it => it.priority = Priority.high)) = [] ∧
    (∃ c ∈ dbM.channels, c.channel_type = "mpim") ∧
    (∃ m ∈ dbM.messages, m.user_id ≠ some "U1" ∧ m.created_at = some (1 : ℚ)) ∧
    ((0 : ℚ) < 1) :=
  ⟨by decide, by decide, by decide, by decide⟩

/-- C7 (amended): the status report's direct-message tier (the HIGH items)
consists of messages whose channel row has type `'im'` — group DMs
(`'mpim'`) are NOT included — with `created_at` strictly inside the window
and an author id different from the current identity; under the query's
50-row cap, every qualifying stored message yields exactly such an item
and every item stems from such a message. -/
theorem c7_dm_tier (me : String) (since : ℚ) (db : DB)
    (hchan : (db.channels.map ChannelRow.id).Nodup)
    (hcap : (db.messages.filter (fun m =>
      inImChannel db m && sinceOk (some since) m.created_at)).length ≤ 50) :
    (∀ it ∈ statusGetDms me since db, it.priority = Priority.high) ∧
    (∀ m ∈ db.messages,
      ((∃ c ∈ db.channels, c.id = m.channel_id ∧ c.channel_type = "im") ∧
        (∃ t, m.created_at = some t ∧ since < t) ∧ m.user_id ≠ some me) ↔
      (∃ it ∈ statusGetDms me since db,
        it.channel_id = m.channel_id ∧ it.message_ts = m.ts ∧
        it.timestamp = m.created_at ∧ it.user_id = m.user_id)) := by
  have htake : (sortCreatedDesc (db.messages.filter (fun m =>
      inImChannel db m && sinceOk (some since) m.created_at))).take 50 =
      sortCreatedDesc (db.messages.filter (fun m =>
        inImChannel db m && sinceOk (some since) m.created_at)) := by
    apply List.take_of_length_le
    rw [sortCreatedDesc_length]
    exact hcap
  constructor
  · intro it hit
    obtain ⟨m2, _hm2, rfl⟩ := List.mem_map.mp hit
    rfl
  · intro m hm
    constructor
    · rintro ⟨⟨c, hcmem, hcid, hctype⟩, ⟨t, hct, hlt⟩, huser⟩
      have him : inImChannel db m = true := by
        unfold inImChannel
        have hfind : db.channels.find? (fun r => r.id = c.id) = some c :=
          find?_channel_unique c db.channels hchan hcmem
        rw [hcid] at hfind
        rw [hfind]
        simp [hctype]
      have hsince : sinceOk (some since) m.created_at = true := by
        unfold sinceOk
        rw [hct]
        simp [hlt]
      have hmf : m ∈ db.messages.filter (fun m2 =>
          inImChannel db m2 && sinceOk (some since) m2.created_at) :=
        List.mem_filter.mpr ⟨hm, by rw [him, hsince]; rfl⟩
      have hmdm : m ∈ get_dm_messages (some since) db := by
        unfold get_dm_messages
        rw [htake]
        exact (sortCreatedDesc_mem _ _).mpr hmf
      have hmfl : m ∈ (get_dm_messages (some since) db).filter
          (fun m2 => m2.user_id ≠ some me) :=
        List.mem_filter.mpr ⟨hmdm, by simpa using huser⟩
      exact ⟨mkStatusItem db Priority.high "Direct message" m,
        List.mem_map_of_mem _ hmfl, rfl, rfl, rfl, rfl⟩
    · rintro ⟨it, hit, hch, hts, htime, huid⟩
      obtain ⟨m2, hm2, rfl⟩ := List.mem_map.mp hit
      have hm2fl := List.mem_filter.mp hm2
      have hm2dm := hm2fl.1
      have hm2user : m2.user_id ≠ some me := by simpa using hm2fl.2
      have hm2mem : m2 ∈ db.messages.filter (fun m3 =>
          inImChannel db m3 && sinceOk (some since) m3.created_at) := by
        unfold get_dm_messages at hm2dm
        rw [htake] at hm2dm
        exact (sortCreatedDesc_mem _ _).mp hm2dm
      have hm2f := List.mem_filter.mp hm2mem
      have him : inImChannel db m2 = true := by
        have := hm2f.2
        exact (Bool.and_eq_true _ _ |>.mp this).1
      have hsince : sinceOk (some since) m2.created_at = true := by
        have := hm2f.2
        exact (Bool.and_eq_true _ _ |>.mp this).2
      have hch2 : m2.channel_id = m.channel_id := hch
      have htime2 : m2.created_at = m.created_at := htime
      have huid2 : m2.user_id = m.user_id := huid
      refine ⟨?_, ?_, ?_⟩
      · unfold inImChannel at him
        cases hfind : db.channels.find? (fun cr => cr.id = m2.channel_id) with
        | none => rw [hfind] at him; exact Bool.noConfusion him
        | some c =>
          rw [hfind] at him
          have hcmem : c ∈ db.channels := List.mem_of_find?_eq_some hfind
          have hcid : c.id = m2.channel_id := by
            have := List.find?_some hfind
            simpa using this
          exact ⟨c, hcmem, hch2 ▸ hcid, by simpa using him⟩
      · unfold sinceOk at hsince
        cases hc2 : m2.created_at with
        | none => rw [hc2] at hsince; exact Bool.noConfusion hsince
        | some t =>
          rw [hc2] at hsince
          refine ⟨t, by rw [← htime2, hc2], ?_⟩
          simpa using hsince
      · rw [← huid2]
        exact hm2user

/-- Witness for C7 (amended) on `dbD`: both fresh `im`-channel messages by
another user appear as HIGH items, and every HIGH item stems from such a
message. -/
theorem c7_witness :
    ((dbD.channels.map ChannelRow.id).Nodup) ∧
    ((dbD.messages.filter (fun m =>
      inImChannel dbD m && sinceOk (some 0) m.created_at)).length ≤ 50) ∧
    ((∀ it ∈ statusGetDms "U1" 0 dbD, it.priority = Priority.high) ∧
      (∀ m ∈ dbD.messages,
        ((∃ c ∈ dbD.channels, c.id = m.channel_id ∧ c.channel_type = "im") ∧
          (∃ t, m.created_at = some t ∧ (0 : ℚ) < t) ∧ m.user_id ≠ some "U1") ↔
        (∃ it ∈ statusGetDms "U1" 0 dbD,
          it.channel_id = m.channel_id ∧ it.message_ts = m.ts ∧
          it.timestamp = m.created_at ∧ it.user_id = m.user_id))) :=
  ⟨by decide, by decide, c7_dm_tier "U1" 0 dbD (by decide) (by decide)⟩

theorem itemBefore_true_keyLe (a b : StatusItem) (h : itemBefore a b = true) :
    itemKeyLe a b := by
  unfold itemBefore at h
  rcases Bool.or_eq_true_iff.mp h with h1 | h2
  · exact Or.inl (of_decide_eq_true h1)
  · have h3 := (Bool.and_eq_true _ _).mp h2
    exact Or.inr ⟨of_decide_eq_true h3.1, le_of_lt (of_decide_eq_true h3.2)⟩

theorem itemBefore_false_keyLe (a b : StatusItem) (h : itemBefore a b = false) :
    itemKeyLe b a := by
  unfold itemBefore at h
  have hor := Bool.or_eq_false_iff.mp h
  have h1 : ¬ a.priority.val < b.priority.val := of_decide_eq_false hor.1
  by_cases hlt : b.priority.val < a.priority.val
  · exact Or.inl hlt
  · have heq : a.priority.val = b.priority.val := by omega
    have h2 := hor.2
    rw [decide_eq_true heq, Bool.true_and] at h2
    exact Or.inr ⟨heq.symm, le_of_not_lt (of_decide_eq_false h2)⟩

theorem itemKeyLe_trans (a b c : StatusItem) (h1 : itemKeyLe a b) (h2 : itemKeyLe b c) :
    itemKeyLe a c := by
  rcases h1 with h1 | ⟨h1, h1t⟩ <;> rcases h2 with h2 | ⟨h2, h2t⟩
  · exact Or.inl (by omega)
  · exact Or.inl (by omega)
  · exact Or.inl (by omega)
  · exact Or.inr ⟨by omega, le_trans h2t h1t⟩

theorem insItem_mem (x : StatusItem) :
    ∀ (l : List StatusItem) (a : StatusItem), a ∈ insItem x l ↔ a = x ∨ a ∈ l := by
  intro l
  induction l with
  | nil => intro a; simp [insItem]
  | cons y ys ih =>
    intro a
    unfold insItem
    split
    · simp only [List.mem_cons]
    · rw [List.mem_cons, ih a]
      simp only [List.mem_cons]
      tauto

theorem insItem_pairwise (x : StatusItem) :
    ∀ l : List StatusItem, List.Pairwise itemKeyLe l →
      List.Pairwise itemKeyLe (insItem x l) := by
  intro l
  induction l with
  | nil => intro _; simp [insItem, List.pairwise_cons]
  | cons y ys ih =>
    intro hp
    obtain ⟨hy, hys⟩ := List.pairwise_cons.mp hp
    unfold insItem
    split
    · rename_i hbef
      have hxy : itemKeyLe x y := itemBefore_true_keyLe x y hbef
      refine List.pairwise_cons.mpr ⟨?_, hp⟩
      intro b hb
      rcases List.mem_cons.mp hb with rfl | hbys
      · exact hxy
      · exact itemKeyLe_trans x y b hxy (hy b hbys)
    · rename_i hnbef
      have hyx : itemKeyLe y x :=
        itemBefore_false_keyLe x y (Bool.not_eq_true _ ▸ (by simpa using hnbef))
      refine List.pairwise_cons.mpr ⟨?_, ih hys⟩
      intro b hb
      rcases (insItem_mem x ys b).mp hb with rfl | hbys
      · exact hyx
      · exact hy b hbys

theorem sortItems_aux_pairwise :
    ∀ (l : List StatusItem) (acc : List StatusItem),
      List.Pairwise itemKeyLe acc →
      List.Pairwise itemKeyLe (l.foldl (fun acc2 x => insItem x acc2) acc) := by
  intro l
  induction l with
  | nil => intro acc h; exact h
  | cons x xs ih =>
    intro acc h
    rw [List.foldl_cons]
    exact ih (insItem x acc) (insItem_pairwise x acc h)

theorem sortItems_pairwise (l : List StatusItem) :
    List.Pairwise itemKeyLe (sortItems l) :=
  sortItems_aux_pairwise l [] List.Pairwise.nil

/-- C8: in every status report the items are ordered by priority ascending
(CRITICAL first) and, within a priority tier, by timestamp descending: for
positions `i < j`, item `i`'s priority value is ≤ item `j`'s, and when the
two priorities coincide item `i`'s timestamp is the later one. -/
theorem c8_priority_order (me : String) (since : ℚ) (db : DB) (i j : Nat) (hij : i < j)
    (hj : j < (get_status_items me since db).length) :
    ((get_status_items me since db).get ⟨i, lt_trans hij hj⟩).priority.val ≤
      ((get_status_items me since db).get ⟨j, hj⟩).priority.val ∧
    (((get_status_items me since db).get ⟨i, lt_trans hij hj⟩).priority =
        ((get_status_items me since db).get ⟨j, hj⟩).priority →
      itemTsVal ((get_status_items me since db).get ⟨j, hj⟩) ≤
        itemTsVal ((get_status_items me since db).get ⟨i, lt_trans hij hj⟩)) := by
  have hp : List.Pairwise itemKeyLe (get_status_items me since db) :=
    sortItems_pairwise _
  have hrel := List.pairwise_iff_get.mp hp ⟨i, lt_trans hij hj⟩ ⟨j, hj⟩
    (Fin.mk_lt_mk.mpr hij)
  rcases hrel with h1 | ⟨h1, h2⟩
  · refine ⟨le_of_lt h1, ?_⟩
    intro heq
    exfalso
    rw [heq] at h1
    exact lt_irrefl _ h1
  · exact ⟨le_of_eq h1, fun _ => h2⟩

/-- Witness for C8 on `dbD`: the report has two items; at positions 0 < 1
the priority values are ordered and, sharing the HIGH tier, the later
timestamp comes first. -/
theorem c8_witness :
    ∃ hj : 1 < (get_status_items "U1" 0 dbD).length,
      ((get_status_items "U1" 0 dbD).get ⟨0, lt_trans (by norm_num) hj⟩).priority.val ≤
        ((get_status_items "U1" 0 dbD).get ⟨1, hj⟩).priority.val ∧
      (((get_status_items "U1" 0 dbD).get ⟨0, lt_trans (by norm_num) hj⟩).priority =
          ((get_status_items "U1" 0 dbD).get ⟨1, hj⟩).priority →
        itemTsVal ((get_status_items "U1" 0 dbD).get ⟨1, hj⟩) ≤
          itemTsVal ((get_status_items "U1" 0 dbD).get ⟨0, lt_trans (by norm_num) hj⟩)) := by
  have hj : 1 < (get_status_items "U1" 0 dbD).length := by decide
  exact ⟨hj, c8_priority_order "U1" 0 dbD 0 1 (by norm_num) hj⟩
